import Mathlib

/-!
# Verification development for `cherry`

A shallow embedding of the release command (`cmd/command/release.go`), of the
GitHub client (`internal/service/github.go`) and of the specification file
model (`internal/spec/spec.go`), followed by theorems about them.

Go strings are represented by Lean strings; Go `error` values that are only
ever formatted with `%s` are represented by their message.
-/

namespace Cherry

/-! ## `internal/spec` : data model -/

namespace spec

/-- Build has the specifications for build command. -/
structure Build where
  CrossCompile : Bool
  MainFile : String
  BinaryFile : String
  VersionPackage : String
  GoVersions : List String
  Platforms : List String
  deriving DecidableEq, Repr

/-- Release has the specifications for release command. -/
structure Release where
  Model : String
  Build : Bool
  deriving DecidableEq, Repr

/-- Spec has all the specifications for Cherry. -/
structure Spec where
  ToolName : String
  ToolVersion : String
  Version : String
  Language : String
  VersionFile : String
  Build : Build
  Release : Release
  deriving DecidableEq, Repr

end spec

/-! ## Go standard library `flag`, restricted to the flag set of the release command

`Release.FlagSet` creates a flag set named "release" with `ContinueOnError`
and registers `-model` (string) and `-build` (bool) on the fields of the
specification; `release.Run` adds `-patch`, `-minor`, `-major` (bool) and
`-comment` (string) on its local variables. -/

namespace flag

/-- The six variables the release flag set writes to. -/
structure Vars where
  model : String
  build : Bool
  patch : Bool
  minor : Bool
  major : Bool
  comment : String
  deriving DecidableEq, Repr

/-- The two kinds of flag values the release flag set registers. -/
inductive Kind
  | boolFlag
  | stringFlag
  deriving DecidableEq, Repr

/-- The registered flags (`f.formal`) of the release flag set. -/
def lookup (name : String) : Option Kind :=
  if name = "model" then some Kind.stringFlag
  else if name = "build" then some Kind.boolFlag
  else if name = "patch" then some Kind.boolFlag
  else if name = "minor" then some Kind.boolFlag
  else if name = "major" then some Kind.boolFlag
  else if name = "comment" then some Kind.stringFlag
  else none

/-- The function `strconv.ParseBool`. -/
def parseBool (s : String) : Option Bool :=
  if s = "1" ∨ s = "t" ∨ s = "T" ∨ s = "TRUE" ∨ s = "true" ∨ s = "True" then some true
  else if s = "0" ∨ s = "f" ∨ s = "F" ∨ s = "FALSE" ∨ s = "false" ∨ s = "False" then some false
  else none

/-- Store a boolean through the pointer registered for flag `name`. -/
def setBool (name : String) (b : Bool) (v : Vars) : Vars :=
  if name = "build" then { v with build := b }
  else if name = "patch" then { v with patch := b }
  else if name = "minor" then { v with minor := b }
  else if name = "major" then { v with major := b }
  else v

/-- Store a string through the pointer registered for flag `name`. -/
def setString (name : String) (s : String) (v : Vars) : Vars :=
  if name = "model" then { v with model := s }
  else if name = "comment" then { v with comment := s }
  else v

/-- Split `name` at the first `=` that is not its first character
(the loop `for i := 1; i < len(name); i++` of `parseOne`). -/
def splitValue : List Char → List Char × Option (List Char)
  | [] => ([], none)
  | c :: cs =>
    match cs.span (fun x => x != '=') with
    | (pre, []) => (c :: pre, none)
    | (pre, _ :: val) => (c :: pre, some val)

/-- Outcome of `FlagSet.Parse`: the variables as left by the parser, the error
(`none` for `nil`), and how many times `fs.Usage` was called. -/
structure Result where
  vars : Vars
  err : Option String
  usage : Nat
  deriving DecidableEq, Repr

/-- The method `FlagSet.Parse` (the loop over `parseOne`) with `ContinueOnError`:
arguments are consumed until the first non-flag argument or `--`; every
failure calls `Usage` once and returns an error. -/
def Parse : List String → Vars → Result
  | [], v => ⟨v, none, 0⟩
  | s :: rest, v =>
    match s.toList with
    | '-' :: c :: cs =>
      let body : List Char := if c = '-' then cs else c :: cs
      if c = '-' ∧ cs = [] then ⟨v, none, 0⟩
      else
        match body with
        | [] => ⟨v, some ("bad flag syntax: " ++ s), 1⟩
        | b :: _ =>
          if b = '-' ∨ b = '=' then ⟨v, some ("bad flag syntax: " ++ s), 1⟩
          else
            let nv := splitValue body
            let name := String.mk nv.1
            match lookup name with
            | none =>
              if name = "help" ∨ name = "h" then ⟨v, some "flag: help requested", 1⟩
              else ⟨v, some ("flag provided but not defined: -" ++ name), 1⟩
            | some Kind.boolFlag =>
              match nv.2 with
              | none => Parse rest (setBool name true v)
              | some val =>
                match parseBool (String.mk val) with
                | some b => Parse rest (setBool name b v)
                | none => ⟨v, some ("invalid boolean value for -" ++ name), 1⟩
            | some Kind.stringFlag =>
              match nv.2 with
              | some val => Parse rest (setString name (String.mk val) v)
              | none =>
                match rest with
                | [] => ⟨v, some ("flag needs an argument: -" ++ name), 1⟩
                | val :: rest2 => Parse rest2 (setString name val v)
    | _ => ⟨v, none, 0⟩

end flag

/-! ## `pkg/semver`, `pkg/cui`, `internal/action` : the interfaces used by the release command -/

namespace semver

/-- Modelled from the spec: the type `semver.Segment` of package `pkg/semver`,
"which part of a semantic version (major/minor/patch) a release bump increments". -/
inductive Segment
  | Patch
  | Minor
  | Major
  deriving DecidableEq, Repr

end semver

namespace cui

/-- The console user interface as the release command observes it: the texts
written with `Outputf` and with `Errorf`, oldest first. -/
structure CUI where
  outputs : List String
  errors : List String
  deriving DecidableEq, Repr

/-- The call `ui.Outputf(text)`. -/
def CUI.Outputf (ui : CUI) (text : String) : CUI :=
  { ui with outputs := ui.outputs ++ [text] }

/-- The call `ui.Errorf("%s", err)`, `msg` being `err.Error()`. -/
def CUI.Errorf (ui : CUI) (msg : String) : CUI :=
  { ui with errors := ui.errors ++ [msg] }

end cui

namespace action

/-- The values `release.Run` stores in the context handed to the action. -/
structure Context where
  spec : spec.Spec
  segment : semver.Segment
  comment : String
  timeout : Nat
  deriving DecidableEq, Repr

/-- The three phases of the `action.Action` interface. -/
inductive Phase
  | Dry
  | Run
  | Revert
  deriving DecidableEq, Repr

/-- An implementation of the interface `action.Action` over a state `σ`: each
method takes the context and the current state and returns its error
(`none` for `nil`, otherwise the error message) and the next state. -/
structure Action (σ : Type) where
  Dry : Context → σ → Option String × σ
  Run : Context → σ → Option String × σ
  Revert : Context → σ → Option String × σ

end action

/-! ## `cmd/command/release.go` -/

namespace command

open semver action

def releaseFlagErr : Int := 31
def releaseDryErr : Int := 32
def releaseRunErr : Int := 33
def releaseRevertErr : Int := 34

/-- The constant `releaseTimeout = 10 * time.Minute`, in nanoseconds. -/
def releaseTimeout : Nat := 10 * (60 * 1000000000)

def releaseSynopsis : String := "create a new release"

def releaseHelp : String :=
  "\n\tUse this command for creating a new release.\n\n\tFlags:\n\n" ++
  "\t\t-patch:    create a patch version release                       (default: true)\n" ++
  "\t\t-minor:    create a minor version release                       (default: false)\n" ++
  "\t\t-major:    create a major version release                       (default: false)\n" ++
  "\t\t-comment:  add a comment for the release\n" ++
  "\t\t-model     release model: master, branch                        (default: master)\n" ++
  "\t\t-build:    build the artifacts and include them in the release  (default: false)\n" ++
  "\t\n\tExamples:\n\n" ++
  "\t\tcherry release\n\t\tcherry release -build\n\t\tcherry release -minor\n" ++
  "\t\tcherry release -minor -build\n\t\tcherry release -major\n" ++
  "\t\tcherry release -major -build\n\t\tcherry release -comment \"release comment\"\n\t"

/-- Everything `release.Run` reads and writes: the user interface, the
specification held by the command (the flag set writes to its `Release`
part), the state of the action, and the phases invoked so far with the context
each one received, oldest first. -/
structure World (σ : Type) where
  ui : cui.CUI
  Spec : spec.Spec
  act : σ
  calls : List (Phase × Context)

/-- Invoke one phase of the action, recording the invocation. -/
def invoke {σ : Type} (a : Action σ) (p : Phase) (ctx : Context) (w : World σ) :
    Option String × World σ :=
  let r := match p with
    | Phase.Dry => a.Dry ctx w.act
    | Phase.Run => a.Run ctx w.act
    | Phase.Revert => a.Revert ctx w.act
  (r.1, { w with act := r.2, calls := w.calls ++ [(p, ctx)] })

/-- The variables of the flag set before parsing: `-model` and `-build`
default to the current specification, `-patch` to true, `-minor` and `-major`
to false, `-comment` to the empty string. -/
def flagDefaults (s : spec.Spec) : flag.Vars :=
  { model := s.Release.Model, build := s.Release.Build,
    patch := true, minor := false, major := false, comment := "" }

/-- The segment chosen from the three booleans: `zero` is the value of the
uninitialised `var segment semver.Segment`. -/
def selectSegment (zero : Segment) (patch minor major : Bool) : Segment :=
  let segment := zero
  -- Patch default is true
  let segment := if patch then Segment.Patch else segment
  -- Minor is preferred over patch
  let segment := if minor then Segment.Minor else segment
  -- Major is preferred over minor and patch
  let segment := if major then Segment.Major else segment
  segment

/-- The context built by `release.Run` after a successful parse. -/
def context (zero : Segment) (s : spec.Spec) (v : flag.Vars) : Context :=
  { spec := s, segment := selectSegment zero v.patch v.minor v.major,
    comment := v.comment, timeout := releaseTimeout }

/-- The method `release.Run`: runs the command with the given arguments and
returns the exit code together with the world it leaves behind. -/
def release.Run {σ : Type} (a : Action σ) (zero : Segment) (args : List String) (w : World σ) :
    Int × World σ :=
  let r := flag.Parse args (flagDefaults w.Spec)
  let s : spec.Spec := { w.Spec with Release := { Model := r.vars.model, Build := r.vars.build } }
  let ui := (fun u => cui.CUI.Outputf u releaseHelp)^[r.usage] w.ui
  let w := { w with Spec := s, ui := ui }
  match r.err with
  | some _ => (releaseFlagErr, w)
  | none =>
    let ctx := context zero s r.vars
    -- Try finding any possible failure before running the command
    match invoke a Phase.Dry ctx w with
    | (some err, w) => (releaseDryErr, { w with ui := w.ui.Errorf err })
    | (none, w) =>
      -- Running the command
      match invoke a Phase.Run ctx w with
      | (some err, w) =>
        let w := { w with ui := w.ui.Errorf err }
        -- Try reverting back any side effect in case of failure
        match invoke a Phase.Revert ctx w with
        | (some err, w) => (releaseRevertErr, { w with ui := w.ui.Errorf err })
        | (none, w) => (releaseRunErr, w)
      | (none, w) => (0, w)

/-- The result of parsing `args` with the flag set of the command. -/
def parsed {σ : Type} (args : List String) (w : World σ) : flag.Result :=
  flag.Parse args (flagDefaults w.Spec)

/-- The context the phases receive for `args`. -/
def ctxOf {σ : Type} (zero : Segment) (args : List String) (w : World σ) : Context :=
  context zero
    { w.Spec with
      Release := { Model := (parsed args w).vars.model, Build := (parsed args w).vars.build } }
    (parsed args w).vars

/-- What `Dry` returns when invoked first on the state of the action. -/
def dryOutcome {σ : Type} (a : Action σ) (ctx : Context) (w : World σ) : Option String × σ :=
  a.Dry ctx w.act

/-- What `Run` returns when invoked on the state `Dry` leaves. -/
def runOutcome {σ : Type} (a : Action σ) (ctx : Context) (w : World σ) : Option String × σ :=
  a.Run ctx (dryOutcome a ctx w).2

/-- What `Revert` returns when invoked on the state `Run` leaves. -/
def revertOutcome {σ : Type} (a : Action σ) (ctx : Context) (w : World σ) : Option String × σ :=
  a.Revert ctx (runOutcome a ctx w).2

/-- The phases invoked by one execution that started with `before` recorded calls. -/
def trace {σ : Type} (before : World σ) (after : World σ) : List (Phase × Context) :=
  after.calls.drop before.calls.length

/-- A sample action over a counter: `Dry` succeeds, `Run` fails, `Revert`
fails; each phase increments the counter. -/
def sampleAction : action.Action Nat where
  Dry := fun _ n => (none, n + 1)
  Run := fun _ n => (some "run failed", n + 1)
  Revert := fun _ n => (some "revert failed", n + 1)

/-- A sample action whose `Revert` succeeds. -/
def sampleActionReverted : action.Action Nat where
  Dry := fun _ n => (none, n + 1)
  Run := fun _ n => (some "run failed", n + 1)
  Revert := fun _ n => (none, n + 1)

/-- A sample specification. -/
def sampleSpec : spec.Spec :=
  { ToolName := "cherry", ToolVersion := "", Version := "1.0", Language := "go",
    VersionFile := "VERSION",
    Build := { CrossCompile := false, MainFile := "main.go", BinaryFile := "bin/app",
               VersionPackage := "./cmd/version", GoVersions := ["1.13"], Platforms := [] },
    Release := { Model := "master", Build := false } }

/-- A sample world: nothing printed, nothing invoked. -/
def sampleWorld : World Nat :=
  { ui := { outputs := [], errors := [] }, Spec := sampleSpec, act := 0, calls := [] }

end command

/-! ## Go standard library: `strings`, `path/filepath` (Unix), `net/url`, `regexp`

Go strings are byte sequences; the functions below act on the characters of a
Lean string and use its UTF-8 encoding where Go counts or escapes bytes. -/

namespace strings

/-- The builtin `len(s)`: the number of bytes of `s`. -/
def len (s : String) : Nat := s.utf8ByteSize

/-- The function `strings.HasPrefix`. -/
def HasPrefix (s p : String) : Bool := p.toList.isPrefixOf s.toList

end strings

namespace filepath

/-- Split a path at every separator `/`. -/
def splitSep : List Char → List (List Char)
  | [] => [[]]
  | c :: cs =>
    if c = '/' then [] :: splitSep cs
    else
      match splitSep cs with
      | [] => [[c]]
      | e :: es => (c :: e) :: es

/-- One step of the lexical processing of `Clean`: `out` holds the elements
kept so far, innermost first. -/
def cleanStep (rooted : Bool) (out : List (List Char)) (e : List Char) : List (List Char) :=
  if e = [] ∨ e = ['.'] then out
  else if e = ['.', '.'] then
    match out with
    | [] => if rooted then [] else [e]
    | o :: os => if o = ['.', '.'] then e :: o :: os else os
  else e :: out

/-- The function `filepath.Clean` for the separator `/`: collapse repeated
separators, drop `.` elements, resolve inner `..` elements, drop `..` at the
root; the empty result is `.`. -/
def Clean (path : String) : String :=
  let cs := path.toList
  let rooted : Bool := cs.head? = some '/'
  let out := ((splitSep cs).foldl (cleanStep rooted) []).reverse
  let body := List.intercalate ['/'] out
  if rooted then String.mk ('/' :: body)
  else if body = [] then "."
  else String.mk body

/-- Remove the trailing separators of a reversed path. -/
def dropSeps : List Char → List Char
  | [] => []
  | c :: cs => if c = '/' then dropSeps cs else c :: cs

/-- The function `filepath.Base` for the separator `/`: the last element of the
path after removing trailing separators; `.` for the empty path and `/` for a
path made of separators only. -/
def Base (path : String) : String :=
  if path = "" then "."
  else
    let r := dropSeps path.toList.reverse
    let last := (r.takeWhile (fun c => c != '/')).reverse
    if last = [] then "/" else String.mk last

end filepath

namespace url

/-- The UTF-8 encoding of a character. -/
def utf8Bytes (c : Char) : List Nat :=
  let v := c.toNat
  if v < 0x80 then [v]
  else if v < 0x800 then [0xc0 + v / 0x40, 0x80 + v % 0x40]
  else if v < 0x10000 then [0xe0 + v / 0x1000, 0x80 + v / 0x40 % 0x40, 0x80 + v % 0x40]
  else [0xf0 + v / 0x40000, 0x80 + v / 0x1000 % 0x40, 0x80 + v / 0x40 % 0x40, 0x80 + v % 0x40]

/-- The digit `"0123456789ABCDEF"[n]`. -/
def upperhex (n : Nat) : Char :=
  if n < 10 then Char.ofNat (48 + n) else Char.ofNat (55 + n)

/-- The bytes `QueryEscape` leaves alone: letters, digits, `-`, `_`, `.`, `~`. -/
def unreserved (b : Nat) : Bool :=
  (97 ≤ b && b ≤ 122) || (65 ≤ b && b ≤ 90) || (48 ≤ b && b ≤ 57) ||
    b == 45 || b == 95 || b == 46 || b == 126

/-- Escape one byte in query-component mode. -/
def escapeByte (b : Nat) : List Char :=
  if unreserved b then [Char.ofNat b]
  else if b = 32 then ['+']
  else ['%', upperhex (b / 16), upperhex (b % 16)]

/-- The function `url.QueryEscape`. -/
def QueryEscape (s : String) : String :=
  String.mk (s.toList.flatMap (fun c => (utf8Bytes c).flatMap escapeByte))

end url

namespace regexp

/-- The class `[0-9A-Za-z_,]`. -/
def isTemplateChar (c : Char) : Bool :=
  c.isDigit || c.isUpper || c.isLower || c == '_' || c == ','

/-- The number of characters matched by `\x7b\?[0-9A-Za-z_,]+\x7d` at the head of
the input, if it matches there: an opening brace, a question mark, the longest
non-empty run of class characters, and a closing brace. -/
def matchTemplate : List Char → Option Nat
  | c :: d :: cs =>
    if c = '\x7b' ∧ d = '?' then
      match cs.dropWhile isTemplateChar with
      | e :: _ =>
        if e = '\x7d' ∧ 0 < (cs.takeWhile isTemplateChar).length
        then some ((cs.takeWhile isTemplateChar).length + 3)
        else none
      | [] => none
    else none
  | _ => none

/-- Scan left to right, `skip` characters of a match still to be dropped: at
every position outside a match, a match that begins there is dropped whole
and the scan resumes behind it; any other character is copied. -/
def stripFrom : Nat → List Char → List Char
  | _, [] => []
  | skip + 1, _ :: cs => stripFrom skip cs
  | 0, c :: cs =>
    match matchTemplate (c :: cs) with
    | some n => stripFrom (n - 1) cs
    | none => c :: stripFrom 0 cs

/-- The call `regexp.MustCompile(...).ReplaceAllLiteralString(s, "")` for the
expression of `UploadAssets`: every leftmost non-overlapping match is removed. -/
def stripTemplates (s : String) : String :=
  String.mk (stripFrom 0 s.toList)

end regexp

/-! ## `internal/service/github.go` -/

namespace service

def apiAddr : String := "https://api.github.com"
def acceptType : String := "application/vnd.github.v3+json"
def userAgent : String := "moorara/cherry"

/-- Asset is the model for release assets. -/
structure Asset where
  ID : Int
  Name : String
  Label : String
  State : String
  Size : Int
  ContentType : String
  DownloadURL : String
  deriving DecidableEq, Repr

/-- Release is the model for GitHub release. -/
structure Release where
  ID : Int
  Name : String
  TagName : String
  Target : String
  Draft : Bool
  Prerelease : Bool
  Body : String
  URL : String
  HTMLURL : String
  AssetsURL : String
  UploadURL : String
  Assets : List Asset
  deriving DecidableEq, Repr

/-- ReleaseInput is the model for creating and editing a release. -/
structure ReleaseInput where
  Name : String
  TagName : String
  Target : String
  Draft : Bool
  Prerelease : Bool
  Body : String
  deriving DecidableEq, Repr

/-- Modelled from the spec: the type `SemVer` of this package, declared outside
the sources at hand; "a tag name is the version rendered with a fixed prefix
(e.g. `v1.2.3`)". -/
structure SemVer where
  Major : Nat
  Minor : Nat
  Patch : Nat
  deriving DecidableEq, Repr

/-- Modelled from the spec: the method `SemVer.GitTag`. -/
def SemVer.GitTag (v : SemVer) : String :=
  "v" ++ toString v.Major ++ "." ++ toString v.Minor ++ "." ++ toString v.Patch

/-- An open file: its bytes, the read offset, and the failures the operating
system may report for `Stat`, `Read` and `Seek` on it. -/
structure File where
  content : List Nat
  offset : Nat
  statErr : Option String
  readErr : Option String
  seekErr : Option String
  deriving DecidableEq, Repr

/-- A request body: nothing, a `bytes.Buffer`, or an open file. -/
inductive Body
  | none
  | buffer (data : String)
  | file (f : File)
  deriving DecidableEq, Repr

/-- The fields of `http.Request` the client sets. `rawURL` is the `url` argument
`http.NewRequest` was called with; `URL` is the URL the request carries, which
`http.NewRequest` parses from that argument, in the form `URL.String()`
renders it. -/
structure Request where
  Method : String
  rawURL : String
  URL : String
  Header : List (String × String)
  Body : Body
  ContentLength : Int
  deriving DecidableEq, Repr

/-- The fields of `http.Response` the client reads. -/
structure Response where
  StatusCode : Int
  Body : String
  deriving DecidableEq, Repr

/-- The `error` values of this package: an error reported by a library call,
or the error `util.NewHTTPError` builds from a response. -/
inductive Error
  | lib (msg : String)
  | http (res : Response)
  deriving DecidableEq, Repr

/-- Modelled from the spec: the function `util.NewHTTPError` of package
`internal/util`, "a `HostError` carrying the response detail". -/
def NewHTTPError (res : Response) : Error := Error.http res

/-- The method `Header.Set` for a key in canonical form. -/
def Request.setHeader (req : Request) (key value : String) : Request :=
  { req with Header := (key, value) :: req.Header.filter (fun kv => kv.1 != key) }

/-- The method `Header.Get` for a key in canonical form. -/
def Request.getHeader (req : Request) (key : String) : Option String :=
  req.Header.lookup key

/-- The library and operating-system behaviour the client depends on and this
development leaves open: which URLs `http.NewRequest` rejects (`parseURL`
gives the error of `url.Parse`), the URL it holds after parsing (`urlString`
gives `URL.String()` of the parsed argument: the path re-escaped, the query
kept from the first `?` on, the fragment cut off), the JSON encoder and
decoders, the file system, and `http.DetectContentType`. -/
structure Lib where
  parseURL : String → Option String
  urlString : String → String
  encodeInput : ReleaseInput → String
  decodeRelease : String → Except String Release
  decodeReleases : String → Except String (List Release)
  osOpen : String → Except String File
  DetectContentType : List Nat → String

/-- The struct `github`. The field `client` is the behaviour of
`client.Do`: the answer to a request given the requests sent before it. -/
structure github where
  client : List Request → Request → Except String Response
  apiAddr : String
  authHeader : String

/-- The struct `uploadContent`. -/
structure uploadContent where
  Body : File
  Length : Int
  MIMEType : String
  deriving DecidableEq, Repr

/-- NewGithub creates a new Github instance; `client` stands for the
`http.Client` it allocates. -/
def NewGithub (client : List Request → Request → Except String Response) (token : String) :
    github :=
  { client := client, apiAddr := apiAddr, authHeader := "token " ++ token }

def github.isTokenValid (gh : github) : Bool :=
  let hasPrefix := strings.HasPrefix gh.authHeader "token"
  let isLenValid := decide (strings.len gh.authHeader > 6)
  hasPrefix && isLenValid

/-- The call `http.NewRequest(method, url, body)` for one of the constant
methods of this package: it fails only when the URL does not parse, and the
request carries the parsed URL; the content length is known for a buffer
only. -/
def NewRequest (L : Lib) (method url : String) (body : Body) : Except Error Request :=
  match L.parseURL url with
  | some msg => .error (Error.lib msg)
  | none =>
    .ok { Method := method, rawURL := url, URL := L.urlString url, Header := [], Body := body,
          ContentLength := match body with
            | Body.buffer data => (strings.len data : Int)
            | _ => 0 }

/-- The call `gh.client.Do(req)`: the request is appended to the requests sent. -/
def github.Do (gh : github) (req : Request) (sent : List Request) :
    Except Error Response × List Request :=
  (match gh.client sent req with
    | .ok res => .ok res
    | .error msg => .error (Error.lib msg),
   sent ++ [req])

/-- The call `file.Read(buff)` on a buffer of 512 zero bytes: the buffer
afterwards and the file with its offset advanced; end of file or any other
failure is an error. -/
def File.Read512 (f : File) : Except Error (List Nat × File) :=
  match f.readErr with
  | some msg => .error (Error.lib msg)
  | none =>
    let rest := f.content.drop f.offset
    if rest = [] then .error (Error.lib "EOF")
    else
      let got := rest.take 512
      .ok (got ++ List.replicate (512 - got.length) 0, { f with offset := f.offset + got.length })

/-- The call `os.Open(name)`: the file as the file system holds it, opened for
reading at offset 0. -/
def Lib.Open (L : Lib) (name : String) : Except Error File :=
  match L.osOpen name with
  | .error msg => .error (Error.lib msg)
  | .ok file => .ok { file with offset := 0 }

/-- The method `getUploadContent`: open the file, take its size, detect the
content type from its first 512 bytes, and rewind it. -/
def github.getUploadContent (L : Lib) (filepath : String) : Except Error uploadContent :=
  match L.Open filepath with
  | .error err => .error err
  | .ok file =>
    match file.statErr with
    | some msg => .error (Error.lib msg)
    | none =>
      -- Read the first 512 bytes of file to determine the mime type of asset
      match file.Read512 with
      | .error err => .error err
      | .ok (buff, file) =>
        -- Determine mime type of asset
        let mimeType := L.DetectContentType buff
        -- Reset the offset back to the beginning of the file
        match file.seekErr with
        | some msg => .error (Error.lib msg)
        | none =>
          let file := { file with offset := 0 }
          .ok { Body := file, Length := (file.content.length : Int), MIMEType := mimeType }

def github.BranchProtectionForAdmin (L : Lib) (gh : github) (repo branch : String)
    (enabled : Bool) (sent : List Request) : Option Error × List Request :=
  let method := if enabled then "POST" else "DELETE"
  let statusCode : Int := if enabled then 200 else 204
  let url := gh.apiAddr ++ "/repos/" ++ repo ++ "/branches/" ++ branch ++
    "/protection/enforce_admins"
  match NewRequest L method url Body.none with
  | .error err => (some err, sent)
  | .ok req =>
    let req := req.setHeader "Authorization" gh.authHeader
    let req := req.setHeader "Accept" acceptType
    let req := req.setHeader "User-Agent" userAgent
    match gh.Do req sent with
    | (.error err, sent) => (some err, sent)
    | (.ok res, sent) =>
      if res.StatusCode ≠ statusCode then (some (NewHTTPError res), sent)
      else (none, sent)

def github.CreateRelease (L : Lib) (gh : github) (repo : String) (input : ReleaseInput)
    (sent : List Request) : (Option Release × Option Error) × List Request :=
  let method := "POST"
  let url := gh.apiAddr ++ "/repos/" ++ repo ++ "/releases"
  let body := Body.buffer (L.encodeInput input)
  match NewRequest L method url body with
  | .error err => ((none, some err), sent)
  | .ok req =>
    let req := req.setHeader "Authorization" gh.authHeader
    let req := req.setHeader "Accept" acceptType
    let req := req.setHeader "User-Agent" userAgent
    let req := req.setHeader "Content-Type" "application/json"
    match gh.Do req sent with
    | (.error err, sent) => ((none, some err), sent)
    | (.ok res, sent) =>
      if res.StatusCode ≠ 201 then ((none, some (NewHTTPError res)), sent)
      else
        match L.decodeRelease res.Body with
        | .error msg => ((none, some (Error.lib msg)), sent)
        | .ok release => ((some release, none), sent)

def github.EditRelease (L : Lib) (gh : github) (repo : String) (releaseID : Int)
    (input : ReleaseInput) (sent : List Request) :
    (Option Release × Option Error) × List Request :=
  let method := "PATCH"
  let url := gh.apiAddr ++ "/repos/" ++ repo ++ "/releases/" ++ toString releaseID
  let body := Body.buffer (L.encodeInput input)
  match NewRequest L method url body with
  | .error err => ((none, some err), sent)
  | .ok req =>
    let req := req.setHeader "Authorization" gh.authHeader
    let req := req.setHeader "Accept" acceptType
    let req := req.setHeader "User-Agent" userAgent
    let req := req.setHeader "Content-Type" "application/json"
    match gh.Do req sent with
    | (.error err, sent) => ((none, some err), sent)
    | (.ok res, sent) =>
      if res.StatusCode ≠ 200 then ((none, some (NewHTTPError res)), sent)
      else
        match L.decodeRelease res.Body with
        | .error msg => ((none, some (Error.lib msg)), sent)
        | .ok release => ((some release, none), sent)

def github.GetRelease (L : Lib) (gh : github) (repo : String) (version : SemVer)
    (sent : List Request) : (Option Release × Option Error) × List Request :=
  let method := "GET"
  let url := gh.apiAddr ++ "/repos/" ++ repo ++ "/releases/tags/" ++ version.GitTag
  match NewRequest L method url Body.none with
  | .error err => ((none, some err), sent)
  | .ok req =>
    let req := req.setHeader "Accept" acceptType
    let req := req.setHeader "User-Agent" userAgent
    let req := if gh.isTokenValid then req.setHeader "Authorization" gh.authHeader else req
    match gh.Do req sent with
    | (.error err, sent) => ((none, some err), sent)
    | (.ok res, sent) =>
      if res.StatusCode ≠ 200 then ((none, some (NewHTTPError res)), sent)
      else
        match L.decodeRelease res.Body with
        | .error msg => ((none, some (Error.lib msg)), sent)
        | .ok release => ((some release, none), sent)

def github.GetReleases (L : Lib) (gh : github) (repo : String) (sent : List Request) :
    (Option (List Release) × Option Error) × List Request :=
  let method := "GET"
  let url := gh.apiAddr ++ "/repos/" ++ repo ++ "/releases"
  match NewRequest L method url Body.none with
  | .error err => ((none, some err), sent)
  | .ok req =>
    let req := req.setHeader "Accept" acceptType
    let req := req.setHeader "User-Agent" userAgent
    let req := if gh.isTokenValid then req.setHeader "Authorization" gh.authHeader else req
    match gh.Do req sent with
    | (.error err, sent) => ((none, some err), sent)
    | (.ok res, sent) =>
      if res.StatusCode ≠ 200 then ((none, some (NewHTTPError res)), sent)
      else
        match L.decodeReleases res.Body with
        | .error msg => ((none, some (Error.lib msg)), sent)
        | .ok releases => ((some releases, none), sent)

def github.GetLatestRelease (L : Lib) (gh : github) (repo : String) (sent : List Request) :
    (Option Release × Option Error) × List Request :=
  let method := "GET"
  let url := gh.apiAddr ++ "/repos/" ++ repo ++ "/releases/latest"
  match NewRequest L method url Body.none with
  | .error err => ((none, some err), sent)
  | .ok req =>
    let req := req.setHeader "Accept" acceptType
    let req := req.setHeader "User-Agent" userAgent
    let req := if gh.isTokenValid then req.setHeader "Authorization" gh.authHeader else req
    match gh.Do req sent with
    | (.error err, sent) => ((none, some err), sent)
    | (.ok res, sent) =>
      if res.StatusCode ≠ 200 then ((none, some (NewHTTPError res)), sent)
      else
        match L.decodeRelease res.Body with
        | .error msg => ((none, some (Error.lib msg)), sent)
        | .ok release => ((some release, none), sent)

/-- The URL string `UploadAssets` hands to `http.NewRequest` for one asset. -/
def uploadURL (release : Release) (asset : String) : String :=
  let assetPath := filepath.Clean asset
  let assetName := filepath.Base assetPath
  let url := regexp.stripTemplates release.UploadURL
  url ++ "?name=" ++ Cherry.url.QueryEscape assetName

/-- The body of the loop of `UploadAssets` for one asset: `none` when the
iteration runs to its end, the returned error otherwise. -/
def github.uploadAsset (L : Lib) (gh : github) (release : Release) (asset : String)
    (sent : List Request) : Option Error × List Request :=
  let assetPath := filepath.Clean asset
  let method := "POST"
  let url := uploadURL release asset
  match github.getUploadContent L assetPath with
  | .error err => (some err, sent)
  | .ok content =>
    match NewRequest L method url (Body.file content.Body) with
    | .error err => (some err, sent)
    | .ok req =>
      let req := req.setHeader "Authorization" gh.authHeader
      let req := req.setHeader "Accept" acceptType
      let req := req.setHeader "User-Agent" userAgent
      let req := req.setHeader "Content-Type" content.MIMEType
      let req := { req with ContentLength := content.Length }
      match gh.Do req sent with
      | (.error err, sent) => (some err, sent)
      | (.ok res, sent) =>
        if res.StatusCode ≠ 201 then (some (NewHTTPError res), sent)
        else (none, sent)

def github.UploadAssets (L : Lib) (gh : github) (release : Release) :
    List String → List Request → Option Error × List Request
  | [], sent => (none, sent)
  | asset :: assets, sent =>
    match gh.uploadAsset L release asset sent with
    | (some err, sent) => (some err, sent)
    | (none, sent) => github.UploadAssets L gh release assets sent

/-- The requests one operation sent, given the requests sent before and after. -/
def newRequests (before after : List Request) : List Request :=
  after.drop before.length

/-- A sample release with the upload endpoint GitHub returns. -/
def sampleRelease : Release :=
  { ID := 1, Name := "1.5.0", TagName := "v1.5.0", Target := "master", Draft := false,
    Prerelease := false, Body := "", URL := "https://api.github.com/repos/o/r/releases/1",
    HTMLURL := "", AssetsURL := "",
    UploadURL := "https://uploads.github.com/repos/o/r/releases/1/assets\x7b?name,label\x7d",
    Assets := [] }

/-- What `URL.String()` gives for the URLs of the samples: they contain nothing
Go re-escapes and come back unchanged, except the one with an opening brace in
its path, which Go sends as `%7B`. -/
def sampleURLString (u : String) : String :=
  if u = "https://uploads.github.com/repos/o/r/releases/1/assets\x7b?name,label\x7d?name=my+app"
  then "https://uploads.github.com/repos/o/r/releases/1/assets%7B?name,label\x7d?name=my+app"
  else u

/-- A sample library: every URL parses, every body decodes to the sample
release, and the only file is `bin/app` with four bytes. -/
def sampleLib : Lib :=
  { parseURL := fun _ => none,
    urlString := sampleURLString,
    encodeInput := fun i => i.TagName,
    decodeRelease := fun _ => .ok sampleRelease,
    decodeReleases := fun _ => .ok [sampleRelease],
    osOpen := fun name =>
      if name = "bin/app" then
        .ok { content := [127, 69, 76, 70], offset := 0, statErr := none, readErr := none,
              seekErr := none }
      else .error "no such file or directory",
    DetectContentType := fun _ => "application/octet-stream" }

/-- A sample remote that answers every request with the given status. -/
def answer (status : Int) : List Request → Request → Except String Response :=
  fun _ _ => .ok { StatusCode := status, Body := "" }

/-- The fixed headers: client identification and accepted response type. -/
def FixedHeaders (req : Request) : Prop :=
  req.getHeader "User-Agent" = some userAgent ∧ req.getHeader "Accept" = some acceptType

/-- A request as the read-only operations build it: the fixed headers, and the
authorization header exactly when the token is valid. -/
def ReadRequest (gh : github) (url : String) (req : Request) : Prop :=
  req.Method = "GET" ∧ req.rawURL = url ∧ FixedHeaders req ∧
  req.getHeader "Authorization" = (if gh.isTokenValid then some gh.authHeader else none)

/-- A request as the mutating operations build it: the fixed headers and the
authorization header, whatever the token. -/
def AuthRequest (gh : github) (method url : String) (req : Request) : Prop :=
  req.Method = method ∧ req.rawURL = url ∧ FixedHeaders req ∧
  req.getHeader "Authorization" = some gh.authHeader

/-- A sample input for creating a release. -/
def sampleInput : ReleaseInput :=
  { Name := "1.5.0", TagName := "v1.5.0", Target := "master", Draft := false,
    Prerelease := false, Body := "" }

/-- The request `CreateRelease` builds for the sample input and token `tok`. -/
def sampleCreateRequest : Request :=
  { Method := "POST", rawURL := "https://api.github.com/repos/o/r/releases",
    URL := "https://api.github.com/repos/o/r/releases",
    Header := [("Content-Type", "application/json"), ("User-Agent", "moorara/cherry"),
      ("Accept", "application/vnd.github.v3+json"), ("Authorization", "token tok")],
    Body := Body.buffer "v1.5.0", ContentLength := 6 }

/-- The request `BranchProtectionForAdmin` builds for enabling on `master`. -/
def sampleProtectRequest : Request :=
  { Method := "POST",
    rawURL := "https://api.github.com/repos/o/r/branches/master/protection/enforce_admins",
    URL := "https://api.github.com/repos/o/r/branches/master/protection/enforce_admins",
    Header := [("User-Agent", "moorara/cherry"),
      ("Accept", "application/vnd.github.v3+json"), ("Authorization", "token tok")],
    Body := Body.none, ContentLength := 0 }

end service

namespace regexp

/-- A templated query-parameter segment: an opening brace and a question mark,
one or more characters of `[0-9A-Za-z_,]`, and a closing brace. -/
def IsTemplate (m : List Char) : Prop :=
  ∃ mid, mid ≠ [] ∧ (∀ c ∈ mid, isTemplateChar c = true) ∧
    m = '\x7b' :: '?' :: (mid ++ ['\x7d'])

/-- The string contains a templated query-parameter segment. -/
def HasTemplate (s : String) : Prop :=
  ∃ pre m post, IsTemplate m ∧ s.toList = pre ++ (m ++ post)

/-- The relation "`out` is `s` with its template segments removed", reading
`s` from the left: a segment that begins at the current position is dropped
whole; a character at which no segment begins is kept. -/
inductive Removed : List Char → List Char → Prop
  | done : Removed [] []
  | drop (m rest out : List Char) : IsTemplate m → Removed rest out → Removed (m ++ rest) out
  | keep (c : Char) (cs out : List Char) :
      (¬ ∃ m rest, IsTemplate m ∧ c :: cs = m ++ rest) → Removed cs out →
      Removed (c :: cs) (c :: out)

/-- Every opening brace of the string begins a template segment. -/
def BracesOpenTemplates (s : String) : Prop :=
  ∀ pre rest, s.toList = pre ++ '\x7b' :: rest →
    ∃ m post, IsTemplate m ∧ '\x7b' :: rest = m ++ post

end regexp

namespace service

/-- A release whose upload endpoint has one template segment inside another,
in its path. -/
def nestedRelease : Release :=
  { sampleRelease with
    UploadURL :=
      "https://uploads.github.com/repos/o/r/releases/1/assets\x7b?\x7b?name\x7dname,label\x7d" }

/-- A release whose upload endpoint has one template segment inside another,
in its query. -/
def queryNestedRelease : Release :=
  { sampleRelease with UploadURL := "https://h/a?x=\x7b?\x7b?a\x7db\x7d" }

/-- The sample library with a second file, `bin/my app`. -/
def uploadLib : Lib :=
  { sampleLib with
    osOpen := fun name =>
      if name = "bin/app" ∨ name = "bin/my app" then
        .ok { content := [127, 69, 76, 70], offset := 0, statErr := none, readErr := none,
              seekErr := none }
      else .error "no such file or directory" }

end service

namespace regexp

/-- Decision procedure for `BracesOpenTemplates`: at every opening brace the
expression matches. -/
def bracesOpenTemplates : List Char → Bool
  | [] => true
  | c :: cs => (c != '\x7b' || (matchTemplate (c :: cs)).isSome) && bracesOpenTemplates cs

end regexp

namespace service

/-- The remote answered the request `req`, sent after the requests `sent`,
with status 201. -/
def Created (gh : github) (sent : List Request) (req : Request) : Prop :=
  ∃ res, gh.client sent req = .ok res ∧ res.StatusCode = 201

/-- Three assets of which the second does not exist. -/
def sampleAssets : List String := ["bin/app", "bin/missing", "./bin/app"]


/-- A sample library whose file system holds `bin/app` (four bytes) and the
empty file `bin/empty`. -/
def emptyFileLib : Lib :=
  { sampleLib with
    osOpen := fun name =>
      if name = "bin/app" then
        .ok { content := [127, 69, 76, 70], offset := 0, statErr := none, readErr := none,
              seekErr := none }
      else if name = "bin/empty" then
        .ok { content := [], offset := 0, statErr := none, readErr := none, seekErr := none }
      else .error "no such file or directory" }

/-- The buffer of 512 bytes after reading the head of `content` into it. -/
def head512 (content : List Nat) : List Nat :=
  content.take 512 ++ List.replicate (512 - (content.take 512).length) 0

end service

/-! ## `internal/spec/spec.go` : defaults and reading -/

namespace filepath

/-- The function `filepath.Ext` for the separator `/`: the suffix beginning at
the final dot in the final element of the path; empty if there is no dot. -/
def Ext (path : String) : String :=
  let r := path.toList.reverse
  match r.dropWhile (fun c => c != '/' && c != '.') with
  | c :: _ =>
    if c = '.' then String.mk ('.' :: (r.takeWhile (fun c => c != '/' && c != '.')).reverse)
    else ""
  | [] => ""

end filepath

namespace spec

def defaultToolName : String := "cherry"
def defaultVersion : String := "1.0"
def defaultLanguage : String := "go"
def defaultMainFile : String := "main.go"
def defaultVersionPackage : String := "./cmd/version"
def defaultModel : String := "master"

def specFiles : List String := ["cherry.yml", "cherry.yaml", "cherry.json"]

def defaultGoVersions : List String := ["1.13"]

def defaultPlatforms : List String :=
  ["linux-386", "linux-amd64", "linux-arm", "linux-arm64", "darwin-386", "darwin-amd64",
   "windows-386", "windows-amd64"]

/-- The local `defaultBinaryFile` of `Build.SetDefaults`: `bin/app`, or `bin/`
followed by the base name of the working directory when `os.Getwd` succeeds;
`getwd` is the result of `os.Getwd`. -/
def defaultBinaryFile (getwd : Except String String) : String :=
  match getwd with
  | .ok wd => "bin/" ++ filepath.Base wd
  | .error _ => "bin/app"

/-- SetDefaults sets default values for empty fields. -/
def Build.SetDefaults (getwd : Except String String) (b : Build) : Build :=
  let defaultBinaryFile := defaultBinaryFile getwd
  let b := if b.MainFile = "" then { b with MainFile := defaultMainFile } else b
  let b := if b.BinaryFile = "" then { b with BinaryFile := defaultBinaryFile } else b
  let b := if b.VersionPackage = "" then { b with VersionPackage := defaultVersionPackage } else b
  let b := if b.GoVersions.length = 0 then { b with GoVersions := defaultGoVersions } else b
  let b := if b.Platforms.length = 0 then { b with Platforms := defaultPlatforms } else b
  b

/-- SetDefaults sets default values for empty fields. -/
def Release.SetDefaults (r : Release) : Release :=
  if r.Model = "" then { r with Model := defaultModel } else r

/-- SetDefaults sets default values for empty fields. -/
def Spec.SetDefaults (getwd : Except String String) (s : Spec) : Spec :=
  let s := if s.ToolName = "" then { s with ToolName := defaultToolName } else s
  let s := if s.Version = "" then { s with Version := defaultVersion } else s
  let s := if s.Language = "" then { s with Language := defaultLanguage } else s
  let s := { s with Build := s.Build.SetDefaults getwd }
  let s := { s with Release := s.Release.SetDefaults }
  s

/-- The zero value of `Spec`. -/
def emptySpec : Spec :=
  { ToolName := "", ToolVersion := "", Version := "", Language := "", VersionFile := "",
    Build := { CrossCompile := false, MainFile := "", BinaryFile := "", VersionPackage := "",
               GoVersions := [], Platforms := [] },
    Release := { Model := "", Build := false } }

/-- A specification with every field populated except the tool name and the
tool version, which are not read from the specification file. -/
def populatedSpec : Spec :=
  { ToolName := "", ToolVersion := "", Version := "2.0", Language := "go",
    VersionFile := "version.yaml",
    Build := { CrossCompile := true, MainFile := "cmd/main.go", BinaryFile := "build/app",
               VersionPackage := "./cmd/version", GoVersions := ["1.10", "1.11"],
               Platforms := ["linux-amd64", "darwin-amd64", "windows-amd64"] },
    Release := { Model := "branch", Build := true } }


/-- Error is the custom error type for spec package; `err` is the message of
the wrapped error. -/
structure Error where
  err : String
  SpecNotFound : Bool
  deriving DecidableEq, Repr

/-- The `error` values `Read` returns: an error of a library call (`os.Open`,
a decoder, `errors.New`) or a pointer to an `Error` of this package. -/
inductive ReadError
  | lib (msg : String)
  | specError (e : Error)
  deriving DecidableEq, Repr

/-- Whether the error is an `Error` of this package with the flag
`SpecNotFound` set. -/
def ReadError.SpecNotFound : ReadError → Bool
  | ReadError.lib _ => false
  | ReadError.specError e => e.SpecNotFound

/-- What `os.Open` finds at a path: nothing (`os.IsNotExist` holds of the
error), a failure of another kind, or a file with its bytes. -/
inductive OpenResult
  | notExist
  | failed (msg : String)
  | opened (content : List Nat)
  deriving DecidableEq, Repr

/-- The decoders of `gopkg.in/yaml.v2` and `encoding/json` on non-empty input,
left open. -/
structure Decoders where
  yaml : List Nat → Except String Spec
  json : List Nat → Except String Spec

/-- The call `yaml.NewDecoder(f).Decode(spec)`: end of file on empty input. -/
def Decoders.decodeYAML (D : Decoders) (content : List Nat) : Except String Spec :=
  if content = [] then .error "EOF" else D.yaml content

/-- The call `json.NewDecoder(f).Decode(spec)`: end of file on empty input. -/
def Decoders.decodeJSON (D : Decoders) (content : List Nat) : Except String Spec :=
  if content = [] then .error "EOF" else D.json content

/-- The loop of `Read` over the remaining candidate files. -/
def readFiles (fs : String → OpenResult) (D : Decoders) :
    List String → Option Spec × Option ReadError
  | [] => (none, some (ReadError.specError { err := "no spec file found", SpecNotFound := true }))
  | file :: files =>
    let ext := filepath.Ext file
    let path := filepath.Clean file
    match fs path with
    | OpenResult.notExist => readFiles fs D files
    | OpenResult.failed msg => (none, some (ReadError.lib msg))
    | OpenResult.opened f =>
      if ext = ".yml" ∨ ext = ".yaml" then
        match D.decodeYAML f with
        | .error msg => (none, some (ReadError.lib msg))
        | .ok spec => (some spec, none)
      else if ext = ".json" then
        match D.decodeJSON f with
        | .error msg => (none, some (ReadError.lib msg))
        | .ok spec => (some spec, none)
      else (none, some (ReadError.lib "unknown spec file"))

/-- Read reads and returns specifications from a file; `fs` is the state of
the file system. -/
def Read (fs : String → OpenResult) (D : Decoders) : Option Spec × Option ReadError :=
  readFiles fs D specFiles

/-- The spec file is opened but empty or rejected by `decode`. -/
def Undecodable (fs : String → OpenResult) (decode : List Nat → Except String Spec)
    (file : String) : Prop :=
  ∃ content, fs file = OpenResult.opened content ∧
    (content = [] ∨ ∃ msg, decode content = .error msg)

/-- The bytes of the YAML document `version: v1`, ended by a newline. -/
def versionYAML : List Nat := "version: v1\n".toList.map Char.toNat

/-- The bytes of the JSON document with the one member `"version": "v1"`. -/
def versionJSON : List Nat := "\x7b\"version\": \"v1\"\x7d".toList.map Char.toNat

/-- The specification both documents decode to: `Version` is `v1`, every other
field keeps its zero value. -/
def versionSpec : Spec := { emptySpec with Version := "v1" }

/-- Sample decoders that know one document each, `versionYAML` and
`versionJSON`, and decode it as `gopkg.in/yaml.v2` and `encoding/json` do;
they are not asked about any other input below. -/
def sampleDecoders : Decoders :=
  { yaml := fun c => if c = versionYAML then .ok versionSpec else .error "cannot unmarshal",
    json := fun c => if c = versionJSON then .ok versionSpec else .error "invalid character" }

/-- A file system with `cherry.yml` holding the document `version: v1` and an
empty `cherry.yaml`. -/
def twoFiles : String → OpenResult := fun path =>
  if path = "cherry.yml" then OpenResult.opened versionYAML
  else if path = "cherry.yaml" then OpenResult.opened []
  else OpenResult.notExist

/-- A file system whose only spec file is an empty `cherry.yaml`. -/
def emptyYAML : String → OpenResult := fun path =>
  if path = "cherry.yaml" then OpenResult.opened [] else OpenResult.notExist


/-- What `Read` returns once a decoder has run on the file it opened. -/
def decoded (r : Except String Spec) : Option Spec × Option ReadError :=
  match r with
  | .error msg => (none, some (ReadError.lib msg))
  | .ok spec => (some spec, none)

end spec

namespace url

/-- The characters a query-escaped string is made of: letters, digits,
`-`, `_`, `.`, `~`, `+` for a space, and `%` before two hexadecimal digits. -/
def isEscapedChar (c : Char) : Bool :=
  c.isAlphanum || c == '-' || c == '_' || c == '.' || c == '~' || c == '+' || c == '%'

end url

/-! # Theorems -/

namespace command

open semver action

theorem errors_Outputf_iterate (n : Nat) (ui : cui.CUI) (t : String) :
    ((fun u => cui.CUI.Outputf u t)^[n] ui).errors = ui.errors := by
  induction n generalizing ui with
  | zero => rfl
  | succ n ih => rw [Function.iterate_succ_apply, ih]; rfl

theorem Run_cases {σ : Type} (a : Action σ) (zero : Segment) (args : List String) (w : World σ) :
    ((parsed args w).err ≠ none ∧ (release.Run a zero args w).1 = 31 ∧ trace w (release.Run a zero args w).2 = []
      ∧ (release.Run a zero args w).2.ui.errors = w.ui.errors) ∨
    ((parsed args w).err = none ∧ ∃ e, (dryOutcome a (ctxOf zero args w) w).1 = some e
      ∧ (release.Run a zero args w).1 = 32
      ∧ trace w (release.Run a zero args w).2 = [(Phase.Dry, ctxOf zero args w)]
      ∧ (release.Run a zero args w).2.ui.errors = w.ui.errors ++ [e]) ∨
    ((parsed args w).err = none ∧ (dryOutcome a (ctxOf zero args w) w).1 = none
      ∧ (runOutcome a (ctxOf zero args w) w).1 = none
      ∧ (release.Run a zero args w).1 = 0
      ∧ trace w (release.Run a zero args w).2 = [(Phase.Dry, ctxOf zero args w), (Phase.Run, ctxOf zero args w)]
      ∧ (release.Run a zero args w).2.ui.errors = w.ui.errors) ∨
    ((parsed args w).err = none ∧ (dryOutcome a (ctxOf zero args w) w).1 = none
      ∧ ∃ e, (runOutcome a (ctxOf zero args w) w).1 = some e
      ∧ (revertOutcome a (ctxOf zero args w) w).1 = none
      ∧ (release.Run a zero args w).1 = 33
      ∧ trace w (release.Run a zero args w).2 = [(Phase.Dry, ctxOf zero args w), (Phase.Run, ctxOf zero args w),
          (Phase.Revert, ctxOf zero args w)]
      ∧ (release.Run a zero args w).2.ui.errors = w.ui.errors ++ [e]) ∨
    ((parsed args w).err = none ∧ (dryOutcome a (ctxOf zero args w) w).1 = none
      ∧ ∃ e e2, (runOutcome a (ctxOf zero args w) w).1 = some e
      ∧ (revertOutcome a (ctxOf zero args w) w).1 = some e2
      ∧ (release.Run a zero args w).1 = 34
      ∧ trace w (release.Run a zero args w).2 = [(Phase.Dry, ctxOf zero args w), (Phase.Run, ctxOf zero args w),
          (Phase.Revert, ctxOf zero args w)]
      ∧ (release.Run a zero args w).2.ui.errors = w.ui.errors ++ [e, e2]) := by
  unfold release.Run
  simp only [parsed, ctxOf, dryOutcome, runOutcome, revertOutcome, invoke, trace]
  generalize flag.Parse args (flagDefaults w.Spec) = r
  rcases r with ⟨vars, err, usage⟩
  cases err with
  | some e0 =>
    left
    simp [releaseFlagErr, errors_Outputf_iterate]
  | none =>
    right
    simp only []
    generalize hctx : context zero _ vars = ctx
    rcases hd : a.Dry ctx w.act with ⟨de, s1⟩
    cases de with
    | some e =>
      left
      simp [releaseDryErr, errors_Outputf_iterate, cui.CUI.Errorf]
    | none =>
      right
      simp only []
      rcases hr : a.Run ctx s1 with ⟨re, s2⟩
      cases re with
      | none =>
        left
        simp [errors_Outputf_iterate]
      | some e =>
        right
        simp only []
        rcases hv : a.Revert ctx s2 with ⟨ve, s3⟩
        cases ve with
        | none =>
          left
          simp [releaseRunErr, errors_Outputf_iterate, cui.CUI.Errorf]
        | some e2 =>
          right
          simp [releaseRevertErr, errors_Outputf_iterate, cui.CUI.Errorf]

theorem Run_calls_extend {σ : Type} (a : Action σ) (zero : Segment) (args : List String)
    (w : World σ) : ∃ t, (release.Run a zero args w).2.calls = w.calls ++ t := by
  unfold release.Run
  simp only [invoke]
  generalize flag.Parse args (flagDefaults w.Spec) = r
  rcases r with ⟨vars, err, usage⟩
  cases err with
  | some e0 => exact ⟨[], by simp⟩
  | none =>
    simp only []
    generalize hctx : context zero _ vars = ctx
    rcases hd : a.Dry ctx w.act with ⟨de, s1⟩
    cases de with
    | some e => exact ⟨[(Phase.Dry, ctx)], by simp⟩
    | none =>
      simp only []
      rcases hr : a.Run ctx s1 with ⟨re, s2⟩
      cases re with
      | none => exact ⟨[(Phase.Dry, ctx), (Phase.Run, ctx)], by simp⟩
      | some e =>
        simp only []
        rcases hv : a.Revert ctx s2 with ⟨ve, s3⟩
        cases ve with
        | none => exact ⟨[(Phase.Dry, ctx), (Phase.Run, ctx), (Phase.Revert, ctx)], by simp⟩
        | some e2 => exact ⟨[(Phase.Dry, ctx), (Phase.Run, ctx), (Phase.Revert, ctx)], by simp⟩

/-- C1: `release.Run` returns exactly one of the five pairwise distinct codes
31, 32, 33, 34, 0: 31 iff flag parsing fails; 32 iff the flags parse and Dry
fails; 33 iff Dry succeeds, Run fails and Revert succeeds; 34 iff Dry succeeds,
Run fails and Revert fails; 0 iff Dry and Run both succeed. -/
theorem C1_Run_exit_codes {σ : Type} (a : Action σ) (zero : Segment) (args : List String)
    (w : World σ) :
    [releaseFlagErr, releaseDryErr, releaseRunErr, releaseRevertErr, 0].Nodup ∧
    ((release.Run a zero args w).1 = releaseFlagErr ∨ (release.Run a zero args w).1 = releaseDryErr ∨
      (release.Run a zero args w).1 = releaseRunErr ∨ (release.Run a zero args w).1 = releaseRevertErr ∨
      (release.Run a zero args w).1 = 0) ∧
    ((release.Run a zero args w).1 = 31 ↔ (parsed args w).err ≠ none) ∧
    ((release.Run a zero args w).1 = 32 ↔
      ((parsed args w).err = none ∧ (dryOutcome a (ctxOf zero args w) w).1 ≠ none)) ∧
    ((release.Run a zero args w).1 = 33 ↔
      ((parsed args w).err = none ∧ (dryOutcome a (ctxOf zero args w) w).1 = none ∧
        (runOutcome a (ctxOf zero args w) w).1 ≠ none ∧
        (revertOutcome a (ctxOf zero args w) w).1 = none)) ∧
    ((release.Run a zero args w).1 = 34 ↔
      ((parsed args w).err = none ∧ (dryOutcome a (ctxOf zero args w) w).1 = none ∧
        (runOutcome a (ctxOf zero args w) w).1 ≠ none ∧
        (revertOutcome a (ctxOf zero args w) w).1 ≠ none)) ∧
    ((release.Run a zero args w).1 = 0 ↔
      ((parsed args w).err = none ∧ (dryOutcome a (ctxOf zero args w) w).1 = none ∧
        (runOutcome a (ctxOf zero args w) w).1 = none)) := by
  refine ⟨by decide, ?_⟩
  rcases Run_cases a zero args w with
    ⟨hp, hc, -, -⟩ | ⟨hp, e, hd, hc, -, -⟩ | ⟨hp, hd, hr, hc, -, -⟩ |
    ⟨hp, hd, e, hr, hv, hc, -, -⟩ | ⟨hp, hd, e, e2, hr, hv, hc, -, -⟩
  · simp [hp, hc, releaseFlagErr, releaseDryErr, releaseRunErr, releaseRevertErr]
  · simp [hp, hc, hd, releaseFlagErr, releaseDryErr, releaseRunErr, releaseRevertErr]
  · simp [hp, hc, hd, hr, releaseFlagErr, releaseDryErr, releaseRunErr, releaseRevertErr]
  · simp [hp, hc, hd, hr, hv, releaseFlagErr, releaseDryErr, releaseRunErr, releaseRevertErr]
  · simp [hp, hc, hd, hr, hv, releaseFlagErr, releaseDryErr, releaseRunErr, releaseRevertErr]


/-- C2: the phases invoked by one execution of `release.Run` form a prefix of
[Dry, Run, Revert], each at most once; no phase is invoked when flag parsing
fails; Run is invoked iff Dry returned no error; Revert is invoked iff Run was
invoked and returned an error. -/
theorem C2_phase_order {σ : Type} (a : Action σ) (zero : Segment) (args : List String)
    (w : World σ) :
    (release.Run a zero args w).2.calls = w.calls ++ trace w (release.Run a zero args w).2 ∧
    (trace w (release.Run a zero args w).2).map Prod.fst <+: [Phase.Dry, Phase.Run, Phase.Revert] ∧
    ((trace w (release.Run a zero args w).2).map Prod.fst).Nodup ∧
    ((parsed args w).err ≠ none ↔ trace w (release.Run a zero args w).2 = []) ∧
    (Phase.Dry ∈ (trace w (release.Run a zero args w).2).map Prod.fst ↔ (parsed args w).err = none) ∧
    (Phase.Run ∈ (trace w (release.Run a zero args w).2).map Prod.fst ↔
      ((parsed args w).err = none ∧ (dryOutcome a (ctxOf zero args w) w).1 = none)) ∧
    (Phase.Revert ∈ (trace w (release.Run a zero args w).2).map Prod.fst ↔
      (Phase.Run ∈ (trace w (release.Run a zero args w).2).map Prod.fst ∧
        (runOutcome a (ctxOf zero args w) w).1 ≠ none)) := by
  refine ⟨?_, ?_⟩
  · obtain ⟨t, ht⟩ := Run_calls_extend a zero args w
    simp [trace, ht]
  rcases Run_cases a zero args w with
    ⟨hp, -, ht, -⟩ | ⟨hp, e, hd, -, ht, -⟩ | ⟨hp, hd, hr, -, ht, -⟩ |
    ⟨hp, hd, e, hr, hv, -, ht, -⟩ | ⟨hp, hd, e, e2, hr, hv, -, ht, -⟩
  · simp [hp, ht]
  · simp [hp, ht, hd]
  · simp [hp, ht, hd, hr]
  · simp [hp, ht, hd, hr, hv]
  · simp [hp, ht, hd, hr, hv]


/-- C3: whenever the Run phase fails with error `e`, the error `e` is reported
to the UI however Revert ends: if Revert succeeds the error output is exactly
`[e]` (after what was printed before) and the code is 33, not 34; if Revert
fails with `e2` the error output is exactly `[e, e2]` and the code is 34. -/
theorem C3_run_error_reported {σ : Type} (a : Action σ) (zero : Segment) (args : List String)
    (w : World σ) (e : String)
    (hparse : (parsed args w).err = none)
    (hdry : (dryOutcome a (ctxOf zero args w) w).1 = none)
    (hrun : (runOutcome a (ctxOf zero args w) w).1 = some e) :
    e ∈ (release.Run a zero args w).2.ui.errors ∧
    ((revertOutcome a (ctxOf zero args w) w).1 = none →
      (release.Run a zero args w).2.ui.errors = w.ui.errors ++ [e] ∧
      (release.Run a zero args w).1 = releaseRunErr ∧ (release.Run a zero args w).1 ≠ releaseRevertErr) ∧
    (∀ e2, (revertOutcome a (ctxOf zero args w) w).1 = some e2 →
      (release.Run a zero args w).2.ui.errors = w.ui.errors ++ [e, e2] ∧
      (release.Run a zero args w).1 = releaseRevertErr) := by
  rcases Run_cases a zero args w with
    ⟨hp, -, -, -⟩ | ⟨hp, e1, hd, -, -, -⟩ | ⟨hp, hd, hr, -, -, -⟩ |
    ⟨hp, hd, e1, hr, hv, hc, -, he⟩ | ⟨hp, hd, e1, e2, hr, hv, hc, -, he⟩
  · exact absurd hparse hp
  · simp [hdry] at hd
  · simp [hrun] at hr
  · have : e1 = e := by simpa [hrun] using hr.symm
    subst this
    simp [hv, he, hc, releaseRunErr, releaseRevertErr]
  · have : e1 = e := by simpa [hrun] using hr.symm
    subst this
    simp [hv, he, hc, releaseRunErr, releaseRevertErr]

/-- Witness for C3: with no arguments, the sample action whose Revert fails
prints both errors in order and exits with 34; the one whose Revert succeeds
prints the Run error alone and exits with 33. -/
theorem C3_run_error_reported_witness :
    ((release.Run sampleAction Segment.Patch [] sampleWorld).2.ui.errors =
        ["run failed", "revert failed"] ∧
      (release.Run sampleAction Segment.Patch [] sampleWorld).1 = 34) ∧
    ((release.Run sampleActionReverted Segment.Patch [] sampleWorld).2.ui.errors =
        ["run failed"] ∧
      (release.Run sampleActionReverted Segment.Patch [] sampleWorld).1 = 33 ∧
      (release.Run sampleActionReverted Segment.Patch [] sampleWorld).1 ≠ 34) :=
  ⟨(C3_run_error_reported sampleAction Segment.Patch [] sampleWorld "run failed"
      (by decide) (by decide) (by decide)).2.2 "revert failed" (by decide),
   (C3_run_error_reported sampleActionReverted Segment.Patch [] sampleWorld "run failed"
      (by decide) (by decide) (by decide)).2.1 (by decide)⟩

theorem trace_ctx {σ : Type} (a : Action σ) (zero : Segment) (args : List String)
    (w : World σ) (hparse : (parsed args w).err = none) :
    trace w (release.Run a zero args w).2 ≠ [] ∧
    ∀ c ∈ trace w (release.Run a zero args w).2, c.2 = ctxOf zero args w := by
  rcases Run_cases a zero args w with
    ⟨hp, -, -, -⟩ | ⟨-, e1, -, -, ht, -⟩ | ⟨-, -, -, -, ht, -⟩ |
    ⟨-, -, e1, -, -, -, ht, -⟩ | ⟨-, -, e1, e2, -, -, -, ht, -⟩
  · exact absurd hparse hp
  all_goals simp [ht]

theorem ctxOf_segment {σ : Type} (zero : Segment) (args : List String) (w : World σ) :
    (ctxOf zero args w).segment =
      selectSegment zero (parsed args w).vars.patch (parsed args w).vars.minor
        (parsed args w).vars.major := rfl

/-- C4: the segment handed to the action is Major whenever `-major` is set,
Minor whenever `-minor` is set and `-major` is not, Patch whenever `-patch` is
set and neither `-minor` nor `-major` is; with no arguments it is Patch. Every
phase invoked receives that segment, and Dry is always invoked once the flags
parse. -/
theorem C4_segment_choice {σ : Type} (a : Action σ) (zero : Segment) (args : List String)
    (w : World σ) :
    ((parsed args w).err = none →
      trace w (release.Run a zero args w).2 ≠ [] ∧
      ∀ c ∈ trace w (release.Run a zero args w).2,
        ((parsed args w).vars.major = true → c.2.segment = Segment.Major) ∧
        ((parsed args w).vars.minor = true ∧ (parsed args w).vars.major = false →
          c.2.segment = Segment.Minor) ∧
        ((parsed args w).vars.patch = true ∧ (parsed args w).vars.minor = false ∧
          (parsed args w).vars.major = false → c.2.segment = Segment.Patch)) ∧
    ((parsed [] w).err = none ∧ trace w (release.Run a zero [] w).2 ≠ [] ∧
      ∀ c ∈ trace w (release.Run a zero [] w).2, c.2.segment = Segment.Patch) := by
  refine ⟨fun hparse => ⟨(trace_ctx a zero args w hparse).1, fun c hc => ?_⟩, ?_⟩
  · rw [(trace_ctx a zero args w hparse).2 c hc, ctxOf_segment]
    cases (parsed args w).vars.patch <;> cases (parsed args w).vars.minor <;>
      cases (parsed args w).vars.major <;> simp [selectSegment]
  · have hparse : (parsed [] w).err = none := rfl
    refine ⟨hparse, (trace_ctx a zero [] w hparse).1, fun c hc => ?_⟩
    rw [(trace_ctx a zero [] w hparse).2 c hc]
    rfl


/-- Witness for C4: with `-minor -major` the sample action is invoked and
receives Major in every phase. -/
theorem C4_segment_choice_witness :
    trace sampleWorld (release.Run sampleAction Segment.Patch ["-minor", "-major"] sampleWorld).2 ≠ [] ∧
    ∀ c ∈ trace sampleWorld (release.Run sampleAction Segment.Patch ["-minor", "-major"] sampleWorld).2,
      c.2.segment = Segment.Major :=
  ⟨((C4_segment_choice sampleAction Segment.Patch ["-minor", "-major"] sampleWorld).1
      (by decide)).1,
   fun c hc =>
    (((C4_segment_choice sampleAction Segment.Patch ["-minor", "-major"] sampleWorld).1
      (by decide)).2 c hc).1 (by decide)⟩

end command

namespace service

theorem HasPrefix_token (t : String) : strings.HasPrefix ("token " ++ t) "token" = true := by
  unfold strings.HasPrefix
  rw [List.isPrefixOf_iff_prefix]
  exact ⟨' ' :: t.toList, by simp [String.toList]⟩

theorem len_token (t : String) : strings.len ("token " ++ t) = 6 + strings.len t := by
  unfold strings.len
  rcases t with ⟨cs⟩
  show String.utf8Len ("token ".data ++ cs) = 6 + String.utf8Len cs
  have h6 : String.utf8Len "token ".data = 6 := by decide
  rw [String.utf8Len_append, h6]

theorem len_eq_zero (t : String) : strings.len t = 0 ↔ t = "" := by
  unfold strings.len
  rcases t with ⟨cs⟩
  show String.utf8Len cs = 0 ↔ _
  rw [String.utf8Len_eq_zero]
  constructor
  · rintro rfl; rfl
  · intro h; exact congrArg String.data h

theorem isTokenValid_NewGithub (client : List Request → Request → Except String Response)
    (t : String) : (NewGithub client t).isTokenValid = true ↔ t ≠ "" := by
  have h := len_eq_zero t
  simp only [github.isTokenValid, NewGithub, HasPrefix_token, len_token, Bool.true_and,
    decide_eq_true_eq]
  constructor
  · intro h1 h2
    rw [← h] at h2
    omega
  · intro h1
    have : strings.len t ≠ 0 := fun h0 => h1 (h.mp h0)
    omega


theorem lookup_filter_ne (k k2 : String) (h : k2 ≠ k) (l : List (String × String)) :
    (l.filter (fun kv => kv.1 != k)).lookup k2 = l.lookup k2 := by
  induction l with
  | nil => rfl
  | cons kv l ih =>
    rcases kv with ⟨a, b⟩
    by_cases hak : a = k
    · subst hak
      have h1 : (k2 == a) = false := by simpa using h
      simp [List.filter, List.lookup, h1, ih]
    · have h2 : (a != k) = true := by simpa using hak
      simp only [List.filter, h2, List.lookup]
      cases hk : (k2 == a) <;> simp [ih]

theorem getHeader_setHeader_same (req : Request) (k v : String) :
    (req.setHeader k v).getHeader k = some v := by
  simp [Request.setHeader, Request.getHeader, List.lookup]

theorem getHeader_setHeader_other (req : Request) (k k2 v : String) (h : k2 ≠ k) :
    (req.setHeader k v).getHeader k2 = req.getHeader k2 := by
  have h1 : (k2 == k) = false := by simpa using h
  simp [Request.setHeader, Request.getHeader, List.lookup, h1, lookup_filter_ne k k2 h]

theorem GetRelease_requests (L : Lib) (gh : github) (repo : String) (version : SemVer)
    (sent : List Request) :
    (L.parseURL (gh.apiAddr ++ "/repos/" ++ repo ++ "/releases/tags/" ++ version.GitTag) ≠ none ∧
      (gh.GetRelease L repo version sent).2 = sent) ∨
    (L.parseURL (gh.apiAddr ++ "/repos/" ++ repo ++ "/releases/tags/" ++ version.GitTag) = none ∧
      ∃ req, (gh.GetRelease L repo version sent).2 = sent ++ [req] ∧
        ReadRequest gh (gh.apiAddr ++ "/repos/" ++ repo ++ "/releases/tags/" ++ version.GitTag) req) := by
  unfold github.GetRelease NewRequest github.Do
  simp only []
  cases hp : L.parseURL (gh.apiAddr ++ "/repos/" ++ repo ++ "/releases/tags/" ++ version.GitTag) with
  | some msg => left; simp
  | none =>
    right
    refine ⟨rfl, ?_⟩
    simp only []
    apply Exists.intro
    refine ⟨?_, ?_⟩
    · cases gh.client sent _ with
      | error msg => rfl
      | ok res =>
        simp only []
        split
        · rfl
        · split <;> rfl
    · unfold ReadRequest FixedHeaders
      split <;>
        simp [getHeader_setHeader_same, getHeader_setHeader_other, Request.setHeader,
          Request.getHeader, List.lookup]

theorem GetLatestRelease_requests (L : Lib) (gh : github) (repo : String)
    (sent : List Request) :
    (L.parseURL (gh.apiAddr ++ "/repos/" ++ repo ++ "/releases/latest") ≠ none ∧
      (gh.GetLatestRelease L repo sent).2 = sent) ∨
    (L.parseURL (gh.apiAddr ++ "/repos/" ++ repo ++ "/releases/latest") = none ∧
      ∃ req, (gh.GetLatestRelease L repo sent).2 = sent ++ [req] ∧
        ReadRequest gh (gh.apiAddr ++ "/repos/" ++ repo ++ "/releases/latest") req) := by
  unfold github.GetLatestRelease NewRequest github.Do
  simp only []
  cases hp : L.parseURL (gh.apiAddr ++ "/repos/" ++ repo ++ "/releases/latest") with
  | some msg => left; simp
  | none =>
    right
    refine ⟨rfl, ?_⟩
    simp only []
    apply Exists.intro
    refine ⟨?_, ?_⟩
    · cases gh.client sent _ with
      | error msg => rfl
      | ok res =>
        simp only []
        split
        · rfl
        · split <;> rfl
    · unfold ReadRequest FixedHeaders
      split <;>
        simp [getHeader_setHeader_same, getHeader_setHeader_other, Request.setHeader,
          Request.getHeader, List.lookup]

theorem GetReleases_requests (L : Lib) (gh : github) (repo : String)
    (sent : List Request) :
    (L.parseURL (gh.apiAddr ++ "/repos/" ++ repo ++ "/releases") ≠ none ∧
      (gh.GetReleases L repo sent).2 = sent) ∨
    (L.parseURL (gh.apiAddr ++ "/repos/" ++ repo ++ "/releases") = none ∧
      ∃ req, (gh.GetReleases L repo sent).2 = sent ++ [req] ∧
        ReadRequest gh (gh.apiAddr ++ "/repos/" ++ repo ++ "/releases") req) := by
  unfold github.GetReleases NewRequest github.Do
  simp only []
  cases hp : L.parseURL (gh.apiAddr ++ "/repos/" ++ repo ++ "/releases") with
  | some msg => left; simp
  | none =>
    right
    refine ⟨rfl, ?_⟩
    simp only []
    apply Exists.intro
    refine ⟨?_, ?_⟩
    · cases gh.client sent _ with
      | error msg => rfl
      | ok res =>
        simp only []
        split
        · rfl
        · split <;> rfl
    · unfold ReadRequest FixedHeaders
      split <;>
        simp [getHeader_setHeader_same, getHeader_setHeader_other, Request.setHeader,
          Request.getHeader, List.lookup]


theorem newRequests_self (sent : List Request) : newRequests sent sent = [] := by
  simp [newRequests]

theorem newRequests_append (sent more : List Request) :
    newRequests sent (sent ++ more) = more := by
  simp [newRequests]

theorem ReadRequest_authorization (client : List Request → Request → Except String Response)
    (t url : String) (req : Request) (h : ReadRequest (NewGithub client t) url req) :
    (req.getHeader "Authorization" ≠ none ↔ t ≠ "") ∧
    (t ≠ "" → req.getHeader "Authorization" = some ("token " ++ t)) := by
  have hv := isTokenValid_NewGithub client t
  rcases h with ⟨-, -, -, ha⟩
  by_cases ht : t = ""
  · have : (NewGithub client t).isTokenValid = false := by
      cases hb : (NewGithub client t).isTokenValid
      · rfl
      · exact absurd ht (hv.mp hb)
    rw [ha, this]
    simp [ht]
  · have : (NewGithub client t).isTokenValid = true := hv.mpr ht
    rw [ha, this]
    simp [ht]
    rfl

/-- C5: a client built by `NewGithub t` has a valid token iff `t` is not empty;
every request of `GetRelease`, `GetReleases` and `GetLatestRelease` carries an
Authorization header iff `t` is not empty (then `"token " ++ t`); the token
does not decide whether a request is issued, and with the empty token the
request is issued, without Authorization header, whenever its URL parses. -/
theorem C5_optional_authorization (L : Lib)
    (client : List Request → Request → Except String Response) (t repo : String)
    (version : SemVer) (sent : List Request) :
    ((NewGithub client t).isTokenValid = true ↔ t ≠ "") ∧
    (∀ req ∈ newRequests sent ((NewGithub client t).GetRelease L repo version sent).2 ++
        (newRequests sent ((NewGithub client t).GetReleases L repo sent).2 ++
          newRequests sent ((NewGithub client t).GetLatestRelease L repo sent).2),
      (req.getHeader "Authorization" ≠ none ↔ t ≠ "") ∧
      (t ≠ "" → req.getHeader "Authorization" = some ("token " ++ t))) ∧
    ((newRequests sent ((NewGithub client t).GetRelease L repo version sent).2).length =
        (newRequests sent ((NewGithub client "").GetRelease L repo version sent).2).length ∧
      (newRequests sent ((NewGithub client t).GetReleases L repo sent).2).length =
        (newRequests sent ((NewGithub client "").GetReleases L repo sent).2).length ∧
      (newRequests sent ((NewGithub client t).GetLatestRelease L repo sent).2).length =
        (newRequests sent ((NewGithub client "").GetLatestRelease L repo sent).2).length) ∧
    (L.parseURL (apiAddr ++ "/repos/" ++ repo ++ "/releases/tags/" ++ version.GitTag) = none →
      ∃ req, ((NewGithub client "").GetRelease L repo version sent).2 = sent ++ [req] ∧
        req.getHeader "Authorization" = none) ∧
    (L.parseURL (apiAddr ++ "/repos/" ++ repo ++ "/releases") = none →
      ∃ req, ((NewGithub client "").GetReleases L repo sent).2 = sent ++ [req] ∧
        req.getHeader "Authorization" = none) ∧
    (L.parseURL (apiAddr ++ "/repos/" ++ repo ++ "/releases/latest") = none →
      ∃ req, ((NewGithub client "").GetLatestRelease L repo sent).2 = sent ++ [req] ∧
        req.getHeader "Authorization" = none) := by
  have e1 := GetRelease_requests L (NewGithub client t) repo version sent
  have e2 := GetReleases_requests L (NewGithub client t) repo sent
  have e3 := GetLatestRelease_requests L (NewGithub client t) repo sent
  have z1 := GetRelease_requests L (NewGithub client "") repo version sent
  have z2 := GetReleases_requests L (NewGithub client "") repo sent
  have z3 := GetLatestRelease_requests L (NewGithub client "") repo sent
  have hapi : ∀ s, (NewGithub client s).apiAddr = apiAddr := fun _ => rfl
  simp only [hapi] at e1 e2 e3 z1 z2 z3
  have hz : ∀ url req, ReadRequest (NewGithub client "") url req →
      req.getHeader "Authorization" = none := by
    intro url req h
    have := (ReadRequest_authorization client "" url req h).1
    cases hh : req.getHeader "Authorization" with
    | none => rfl
    | some v => exact absurd rfl (this.mp (by simp [hh]))
  refine ⟨isTokenValid_NewGithub client t, ?_, ⟨?_, ?_, ?_⟩, ?_, ?_, ?_⟩
  · intro req hreq
    simp only [List.mem_append] at hreq
    rcases hreq with h | h | h
    · rcases e1 with ⟨-, e⟩ | ⟨-, r, e, hr⟩
      · simp [e, newRequests_self] at h
      · simp only [e, newRequests_append, List.mem_singleton] at h
        subst h
        exact ReadRequest_authorization client t _ _ hr
    · rcases e2 with ⟨-, e⟩ | ⟨-, r, e, hr⟩
      · simp [e, newRequests_self] at h
      · simp only [e, newRequests_append, List.mem_singleton] at h
        subst h
        exact ReadRequest_authorization client t _ _ hr
    · rcases e3 with ⟨-, e⟩ | ⟨-, r, e, hr⟩
      · simp [e, newRequests_self] at h
      · simp only [e, newRequests_append, List.mem_singleton] at h
        subst h
        exact ReadRequest_authorization client t _ _ hr
  · rcases e1 with ⟨hp, e⟩ | ⟨hp, r, e, -⟩ <;> rcases z1 with ⟨hq, z⟩ | ⟨hq, r0, z, -⟩
    · simp [e, z]
    · exact absurd hq hp
    · exact absurd hp hq
    · simp [e, z, newRequests_append]
  · rcases e2 with ⟨hp, e⟩ | ⟨hp, r, e, -⟩ <;> rcases z2 with ⟨hq, z⟩ | ⟨hq, r0, z, -⟩
    · simp [e, z]
    · exact absurd hq hp
    · exact absurd hp hq
    · simp [e, z, newRequests_append]
  · rcases e3 with ⟨hp, e⟩ | ⟨hp, r, e, -⟩ <;> rcases z3 with ⟨hq, z⟩ | ⟨hq, r0, z, -⟩
    · simp [e, z]
    · exact absurd hq hp
    · exact absurd hp hq
    · simp [e, z, newRequests_append]
  · intro hp
    rcases z1 with ⟨hq, -⟩ | ⟨-, r0, z, hr⟩
    · exact absurd hp hq
    · exact ⟨r0, z, hz _ _ hr⟩
  · intro hp
    rcases z2 with ⟨hq, -⟩ | ⟨-, r0, z, hr⟩
    · exact absurd hp hq
    · exact ⟨r0, z, hz _ _ hr⟩
  · intro hp
    rcases z3 with ⟨hq, -⟩ | ⟨-, r0, z, hr⟩
    · exact absurd hp hq
    · exact ⟨r0, z, hz _ _ hr⟩

/-- Witness for C5: with the empty token and the sample library, `GetRelease`
issues its request, without Authorization header. -/
theorem C5_optional_authorization_witness :
    ∃ req, ((NewGithub (answer 200) "").GetRelease sampleLib "o/r" ⟨1, 5, 0⟩ []).2 = [] ++ [req] ∧
      req.getHeader "Authorization" = none :=
  (C5_optional_authorization sampleLib (answer 200) "" "o/r" ⟨1, 5, 0⟩ []).2.2.2.1 rfl


theorem BranchProtectionForAdmin_spec (L : Lib) (gh : github) (repo branch : String)
    (enabled : Bool) (sent : List Request) :
    (L.parseURL (gh.apiAddr ++ "/repos/" ++ repo ++ "/branches/" ++ branch ++
        "/protection/enforce_admins") ≠ none ∧
      (gh.BranchProtectionForAdmin L repo branch enabled sent).1 ≠ none ∧
      (gh.BranchProtectionForAdmin L repo branch enabled sent).2 = sent) ∨
    (L.parseURL (gh.apiAddr ++ "/repos/" ++ repo ++ "/branches/" ++ branch ++
        "/protection/enforce_admins") = none ∧
      ∃ req, (gh.BranchProtectionForAdmin L repo branch enabled sent).2 = sent ++ [req] ∧
        AuthRequest gh (if enabled then "POST" else "DELETE")
          (gh.apiAddr ++ "/repos/" ++ repo ++ "/branches/" ++ branch ++
            "/protection/enforce_admins") req ∧
        (gh.BranchProtectionForAdmin L repo branch enabled sent).1 =
          match gh.client sent req with
          | .error msg => some (Error.lib msg)
          | .ok res =>
            if res.StatusCode = (if enabled then 200 else 204) then none
            else some (NewHTTPError res)) := by
  cases enabled
  all_goals
    unfold github.BranchProtectionForAdmin NewRequest github.Do
    simp only [Bool.false_eq_true, if_false, if_true]
    cases hp : L.parseURL (gh.apiAddr ++ "/repos/" ++ repo ++ "/branches/" ++ branch ++
          "/protection/enforce_admins") with
    | some msg => left; simp
    | none =>
      right
      refine ⟨rfl, ?_⟩
      simp only []
      apply Exists.intro
      refine ⟨?_, ?_, ?_⟩
      · cases gh.client sent _ with
        | error msg => rfl
        | ok res =>
          simp only []
          split <;> rfl
      · unfold AuthRequest FixedHeaders
        simp [getHeader_setHeader_same, getHeader_setHeader_other, Request.setHeader,
            Request.getHeader, List.lookup]
      · cases gh.client sent _ with
        | error msg => rfl
        | ok res =>
          simp only []
          split <;> simp_all

theorem CreateRelease_spec (L : Lib) (gh : github) (repo : String) (input : ReleaseInput)
    (sent : List Request) :
    (L.parseURL (gh.apiAddr ++ "/repos/" ++ repo ++ "/releases") ≠ none ∧
      (gh.CreateRelease L repo input sent).1.1 = none ∧
      (gh.CreateRelease L repo input sent).1.2 ≠ none ∧
      (gh.CreateRelease L repo input sent).2 = sent) ∨
    (L.parseURL (gh.apiAddr ++ "/repos/" ++ repo ++ "/releases") = none ∧
      ∃ req, (gh.CreateRelease L repo input sent).2 = sent ++ [req] ∧
        AuthRequest gh "POST" (gh.apiAddr ++ "/repos/" ++ repo ++ "/releases") req ∧
        (gh.CreateRelease L repo input sent).1 =
          match gh.client sent req with
          | .error msg => (none, some (Error.lib msg))
          | .ok res =>
            if res.StatusCode = 201 then
              match L.decodeRelease res.Body with
              | .error msg => (none, some (Error.lib msg))
              | .ok release => (some release, none)
            else (none, some (NewHTTPError res))) := by
  unfold github.CreateRelease NewRequest github.Do
  simp only []
  cases hp : L.parseURL (gh.apiAddr ++ "/repos/" ++ repo ++ "/releases") with
  | some msg => left; simp
  | none =>
    right
    refine ⟨rfl, ?_⟩
    simp only []
    apply Exists.intro
    refine ⟨?_, ?_, ?_⟩
    · cases gh.client sent _ with
      | error msg => rfl
      | ok res =>
        simp only []
        split
        · rfl
        · split <;> rfl
    · unfold AuthRequest FixedHeaders
      simp [getHeader_setHeader_same, getHeader_setHeader_other, Request.setHeader,
          Request.getHeader, List.lookup]
    · cases gh.client sent _ with
      | error msg => rfl
      | ok res =>
        simp only []
        by_cases hs : res.StatusCode = 201
        · simp only [hs, ne_eq, not_true_eq_false, if_false, if_true]
          cases L.decodeRelease res.Body <;> rfl
        · simp [hs]


/-- C6: `CreateRelease` returns a release only when the response status is
exactly 201; for every response with another status (200 included) it returns
a nil release and the error built from the response; it never returns both a
release and an error. -/
theorem C6_CreateRelease_only_201 (L : Lib) (gh : github) (repo : String)
    (input : ReleaseInput) (sent : List Request) :
    ¬ ((gh.CreateRelease L repo input sent).1.1 ≠ none ∧
        (gh.CreateRelease L repo input sent).1.2 ≠ none) ∧
    (∀ release, (gh.CreateRelease L repo input sent).1.1 = some release →
      ∃ req res, (gh.CreateRelease L repo input sent).2 = sent ++ [req] ∧
        gh.client sent req = .ok res ∧ res.StatusCode = 201 ∧
        L.decodeRelease res.Body = .ok release) ∧
    (∀ req res, (gh.CreateRelease L repo input sent).2 = sent ++ [req] →
      gh.client sent req = .ok res → res.StatusCode ≠ 201 →
      (gh.CreateRelease L repo input sent).1 = (none, some (NewHTTPError res))) := by
  rcases CreateRelease_spec L gh repo input sent with
    ⟨-, h1, h2, h3⟩ | ⟨-, req, hlog, -, hres⟩
  · refine ⟨?_, ?_, ?_⟩
    · simp [h1]
    · intro release hr
      simp [h1] at hr
    · intro req res hlog
      rw [h3] at hlog
      simp at hlog
  · refine ⟨?_, ?_, ?_⟩
    · rw [hres]
      cases gh.client sent req with
      | error msg => simp
      | ok res =>
        simp only []
        split
        · cases L.decodeRelease res.Body <;> simp
        · simp
    · intro release hr
      rw [hres] at hr
      cases hc : gh.client sent req with
      | error msg => simp [hc] at hr
      | ok res =>
        simp only [hc] at hr
        by_cases hs : res.StatusCode = 201
        · simp only [hs, if_true] at hr
          cases hd : L.decodeRelease res.Body with
          | error msg => simp [hd] at hr
          | ok rel =>
            simp only [hd, Option.some.injEq] at hr
            exact ⟨req, res, hlog, hc, hs, by rw [hd, hr]⟩
        · simp [hs] at hr
    · intro req2 res hlog2 hc hs
      have : req2 = req := by
        rw [hlog] at hlog2
        simpa using hlog2.symm
      subst this
      rw [hres, hc]
      simp [hs]

/-- Witness for C6: a response with status 200 gives no release and the error
built from that response. -/
theorem C6_CreateRelease_only_201_witness :
    ((NewGithub (answer 200) "tok").CreateRelease sampleLib "o/r" sampleInput []).1 =
      (none, some (NewHTTPError { StatusCode := 200, Body := "" })) :=
  (C6_CreateRelease_only_201 sampleLib (NewGithub (answer 200) "tok") "o/r" sampleInput []).2.2
    sampleCreateRequest { StatusCode := 200, Body := "" } (by decide) rfl (by decide)


/-- C7 (as stated, refuted): enabling with a response of status 201 Created
returns an error, and with a response of status 200 returns no error. -/
theorem C7_enable_201_counterexample :
    ((NewGithub (answer 201) "tok").BranchProtectionForAdmin sampleLib "o/r" "master" true []).1 =
        some (NewHTTPError { StatusCode := 201, Body := "" }) ∧
    ((NewGithub (answer 200) "tok").BranchProtectionForAdmin sampleLib "o/r" "master" true []).1 =
        none := by
  decide

/-- C7 (amended): for every response to the request it sends,
`BranchProtectionForAdmin` with enabled = true returns no error iff the status
is 200, with enabled = false iff the status is 204; for every other status it
returns the error built from the response. -/
theorem C7_protection_status (L : Lib) (gh : github) (repo branch : String) (enabled : Bool)
    (sent : List Request) (req : Request) (res : Response)
    (hlog : (gh.BranchProtectionForAdmin L repo branch enabled sent).2 = sent ++ [req])
    (hres : gh.client sent req = .ok res) :
    ((gh.BranchProtectionForAdmin L repo branch enabled sent).1 = none ↔
      res.StatusCode = (if enabled then 200 else 204)) ∧
    (res.StatusCode ≠ (if enabled then 200 else 204) →
      (gh.BranchProtectionForAdmin L repo branch enabled sent).1 = some (NewHTTPError res)) := by
  rcases BranchProtectionForAdmin_spec L gh repo branch enabled sent with
    ⟨-, -, h3⟩ | ⟨-, req2, hlog2, -, hr⟩
  · rw [h3] at hlog
    simp at hlog
  · have : req2 = req := by
      rw [hlog] at hlog2
      simpa using hlog2.symm
    subst this
    rw [hr, hres]
    by_cases hs : res.StatusCode = (if enabled then 200 else 204)
    · simp [hs]
    · simp [hs]

/-- Witness for C7 (amended): enabling succeeds on status 200. -/
theorem C7_protection_status_witness :
    ((NewGithub (answer 200) "tok").BranchProtectionForAdmin sampleLib "o/r" "master" true []).1 =
        none :=
  ((C7_protection_status sampleLib (NewGithub (answer 200) "tok") "o/r" "master" true []
    sampleProtectRequest { StatusCode := 200, Body := "" } (by decide) rfl).1).mpr (by decide)

end service

namespace regexp

theorem closeBrace_not_class : isTemplateChar '\x7d' = false := by decide

theorem matchTemplate_eq_some_iff (s : List Char) (n : Nat) :
    matchTemplate s = some n ↔
      ∃ mid rest, mid ≠ [] ∧ (∀ c ∈ mid, isTemplateChar c = true) ∧
        s = '\x7b' :: '?' :: (mid ++ '\x7d' :: rest) ∧ n = mid.length + 3 := by
  constructor
  · intro h
    match s, h with
    | [], h => simp [matchTemplate] at h
    | [_], h => simp [matchTemplate] at h
    | c :: d :: cs, h =>
      simp only [matchTemplate] at h
      by_cases hcd : c = '\x7b' ∧ d = '?'
      · rw [if_pos hcd] at h
        rcases hcd with ⟨hc, hd⟩
        cases hdrop : cs.dropWhile isTemplateChar with
        | nil => rw [hdrop] at h; cases h
        | cons e tl =>
          rw [hdrop] at h
          simp only [] at h
          by_cases he : e = '\x7d' ∧ 0 < (cs.takeWhile isTemplateChar).length
          · rw [if_pos he] at h
            rcases he with ⟨he, hpos⟩
            refine ⟨cs.takeWhile isTemplateChar, tl, ?_, ?_, ?_, ?_⟩
            · intro h0
              rw [h0] at hpos
              simp at hpos
            · intro x hx
              exact (List.mem_takeWhile_imp hx)
            · have := List.takeWhile_append_dropWhile isTemplateChar cs
              rw [hdrop, he] at this
              rw [hc, hd, this]
            · simpa using h.symm
          · rw [if_neg he] at h; cases h
      · rw [if_neg hcd] at h; cases h
  · rintro ⟨mid, rest, hne, hall, rfl, rfl⟩
    have ht : (mid ++ '\x7d' :: rest).takeWhile isTemplateChar = mid := by
      rw [List.takeWhile_append_of_pos hall]
      simp [List.takeWhile, closeBrace_not_class]
    have hd : (mid ++ '\x7d' :: rest).dropWhile isTemplateChar = '\x7d' :: rest := by
      rw [List.dropWhile_append_of_pos hall]
      simp [List.dropWhile, closeBrace_not_class]
    have hlen : 0 < mid.length := List.length_pos.mpr hne
    unfold matchTemplate
    simp only [ht, hd]
    simp [hlen]


theorem matchTemplate_isSome_iff (s : List Char) :
    (∃ n, matchTemplate s = some n) ↔ ∃ m rest, IsTemplate m ∧ s = m ++ rest := by
  constructor
  · rintro ⟨n, h⟩
    obtain ⟨mid, rest, hne, hall, hs, -⟩ := (matchTemplate_eq_some_iff s n).mp h
    exact ⟨'\x7b' :: '?' :: (mid ++ ['\x7d']), rest, ⟨mid, hne, hall, rfl⟩, by simp [hs]⟩
  · rintro ⟨m, rest, ⟨mid, hne, hall, rfl⟩, rfl⟩
    exact ⟨mid.length + 3, (matchTemplate_eq_some_iff _ _).mpr
      ⟨mid, rest, hne, hall, by simp, rfl⟩⟩

theorem stripFrom_skip (n : Nat) (s : List Char) : stripFrom n s = stripFrom 0 (s.drop n) := by
  induction n generalizing s with
  | zero => rfl
  | succ n ih =>
    cases s with
    | nil => rfl
    | cons c cs =>
      rw [stripFrom, ih]
      rfl

theorem stripFrom_match (c : Char) (cs mid rest : List Char)
    (hne : mid ≠ []) (hall : ∀ x ∈ mid, isTemplateChar x = true)
    (hs : c :: cs = '\x7b' :: '?' :: (mid ++ '\x7d' :: rest)) :
    stripFrom 0 (c :: cs) = stripFrom 0 rest := by
  have hm : matchTemplate (c :: cs) = some (mid.length + 3) :=
    (matchTemplate_eq_some_iff _ _).mpr ⟨mid, rest, hne, hall, hs, rfl⟩
  rw [stripFrom, hm]
  simp only []
  rw [stripFrom_skip]
  have hcs : cs = '?' :: (mid ++ '\x7d' :: rest) := by
    injection hs
  rw [hcs]
  simp

theorem stripFrom_keep (c : Char) (cs : List Char) (h : matchTemplate (c :: cs) = none) :
    stripFrom 0 (c :: cs) = c :: stripFrom 0 cs := by
  rw [stripFrom, h]

theorem Removed_stripFrom_aux (k : Nat) :
    ∀ s : List Char, s.length ≤ k → Removed s (stripFrom 0 s) := by
  induction k with
  | zero =>
    intro s hs
    have : s = [] := List.length_eq_zero.mp (Nat.le_zero.mp hs)
    subst this
    exact Removed.done
  | succ k ih =>
    intro s hs
    cases s with
    | nil => exact Removed.done
    | cons c cs =>
      cases hm : matchTemplate (c :: cs) with
      | none =>
        rw [stripFrom_keep c cs hm]
        refine Removed.keep c cs _ ?_ (ih cs (by simpa using hs))
        intro hex
        obtain ⟨n, hn⟩ := (matchTemplate_isSome_iff _).mpr hex
        rw [hm] at hn
        cases hn
      | some n =>
        obtain ⟨mid, rest, hne, hall, hs2, -⟩ := (matchTemplate_eq_some_iff _ _).mp hm
        rw [stripFrom_match c cs mid rest hne hall hs2]
        have hlen : rest.length ≤ k := by
          have := congrArg List.length hs2
          simp at this hs
          omega
        have := Removed.drop ('\x7b' :: '?' :: (mid ++ ['\x7d'])) rest _
          ⟨mid, hne, hall, rfl⟩ (ih rest hlen)
        rw [hs2]
        simpa using this

theorem Removed_stripTemplates (s : String) :
    Removed s.toList (stripTemplates s).toList :=
  Removed_stripFrom_aux s.toList.length s.toList (Nat.le_refl _)

end regexp

namespace url

theorem toNat_ofNat_small (b : Nat) (h : b < 0xd800) : (Char.ofNat b).toNat = b := by
  unfold Char.ofNat
  rw [dif_pos (Or.inl h)]
  rfl

theorem toNat_lt (c : Char) : c.toNat < 0x110000 := by
  have := c.valid
  unfold UInt32.isValidChar Nat.isValidChar at this
  unfold Char.toNat
  omega

theorem utf8Bytes_lt (c : Char) : ∀ b ∈ utf8Bytes c, b < 256 := by
  have h := toNat_lt c
  intro b hb
  unfold utf8Bytes at hb
  simp only [] at hb
  split at hb
  · simp at hb; omega
  · split at hb
    · simp at hb; omega
    · split at hb
      · simp at hb; omega
      · simp at hb; omega

theorem upperhex_ne_brace (n : Nat) (h : n < 16) : upperhex n ≠ '\x7d' := by
  intro he
  have h2 := congrArg Char.toNat he
  unfold upperhex at h2
  split at h2
  · rw [toNat_ofNat_small _ (by omega)] at h2
    have : ('\x7d' : Char).toNat = 125 := rfl
    omega
  · rw [toNat_ofNat_small _ (by omega)] at h2
    have : ('\x7d' : Char).toNat = 125 := rfl
    omega

theorem escapeByte_ne_brace (b : Nat) (hb : b < 256) : ∀ c ∈ escapeByte b, c ≠ '\x7d' := by
  intro c hc
  unfold escapeByte at hc
  split at hc
  · rename_i hu
    simp only [List.mem_singleton] at hc
    subst hc
    intro he
    have h2 := congrArg Char.toNat he
    rw [toNat_ofNat_small _ (by omega)] at h2
    have : ('\x7d' : Char).toNat = 125 := rfl
    simp [unreserved] at hu
    omega
  · split at hc
    · simp only [List.mem_singleton] at hc
      subst hc
      decide
    · simp only [List.mem_cons, List.mem_singleton, List.not_mem_nil, or_false] at hc
      rcases hc with rfl | rfl | rfl
      · decide
      · exact upperhex_ne_brace _ (by omega)
      · exact upperhex_ne_brace _ (by omega)

set_option maxRecDepth 100000 in
theorem escapeByte_chars : ∀ b, b < 256 → ∀ c ∈ escapeByte b, isEscapedChar c = true := by
  decide

theorem QueryEscape_chars (s : String) :
    ∀ c ∈ (QueryEscape s).toList, isEscapedChar c = true := by
  intro c hc
  have : c ∈ s.toList.flatMap (fun c => (utf8Bytes c).flatMap escapeByte) := hc
  rw [List.mem_flatMap] at this
  obtain ⟨x, -, hx⟩ := this
  rw [List.mem_flatMap] at hx
  obtain ⟨b, hb, hcb⟩ := hx
  exact escapeByte_chars b (utf8Bytes_lt x b hb) c hcb

theorem QueryEscape_ne_brace (s : String) : ∀ c ∈ (QueryEscape s).toList, c ≠ '\x7d' := by
  intro c hc
  have : c ∈ s.toList.flatMap (fun c => (utf8Bytes c).flatMap escapeByte) := hc
  rw [List.mem_flatMap] at this
  obtain ⟨x, -, hx⟩ := this
  rw [List.mem_flatMap] at hx
  obtain ⟨b, hb, hcb⟩ := hx
  exact escapeByte_ne_brace b (utf8Bytes_lt x b hb) c hcb

end url

namespace regexp

theorem IsTemplate_last (m : List Char) (h : IsTemplate m) :
    ∃ body, m = body ++ ['\x7d'] := by
  obtain ⟨mid, -, -, rfl⟩ := h
  exact ⟨'\x7b' :: '?' :: mid, by simp⟩

theorem IsTemplate_head (m : List Char) (h : IsTemplate m) : '\x7b' ∈ m := by
  obtain ⟨mid, -, -, rfl⟩ := h
  simp

theorem HasTemplate_append_iff (s t : String) (ht : ∀ c ∈ t.toList, c ≠ '\x7d') :
    HasTemplate (s ++ t) ↔ HasTemplate s := by
  constructor
  · rintro ⟨pre, m, post, hm, heq⟩
    obtain ⟨body, rfl⟩ := IsTemplate_last m hm
    have heq2 : s.toList ++ t.toList = (pre ++ body ++ ['\x7d']) ++ post := by
      have : (s ++ t).toList = s.toList ++ t.toList := String.data_append s t
      rw [← this, heq]
      simp
    rcases List.append_eq_append_iff.mp heq2 with ⟨a, h1, h2⟩ | ⟨b, h1, -⟩
    · -- the segment reaches the end of `s` or beyond
      cases a using List.reverseRecOn with
      | nil =>
        refine ⟨pre, body ++ ['\x7d'], [], hm, ?_⟩
        have h3 : s.toList = pre ++ body ++ ['\x7d'] := by simpa using h1.symm
        rw [h3]
        simp
      | append_singleton a0 x _ =>
        have hx : '\x7d' = x := by
          have h3 : (pre ++ body ++ ['\x7d']).getLast? = (s.toList ++ (a0 ++ [x])).getLast? :=
            congrArg List.getLast? h1
          rw [← List.append_assoc s.toList a0 [x], List.getLast?_append, List.getLast?_append] at h3
          simpa using h3
        subst hx
        have : '\x7d' ∈ t.toList := by
          rw [h2]
          simp
        exact absurd rfl (ht _ this)
    · -- the segment ends inside `s`
      refine ⟨pre, body ++ ['\x7d'], b, hm, ?_⟩
      rw [h1]
      simp
  · rintro ⟨pre, m, post, hm, heq⟩
    refine ⟨pre, m, post ++ t.toList, hm, ?_⟩
    have : (s ++ t).toList = s.toList ++ t.toList := String.data_append s t
    rw [this, heq]
    simp

theorem not_HasTemplate_of_no_brace (s : String) (h : '\x7b' ∉ s.toList) : ¬ HasTemplate s := by
  rintro ⟨pre, m, post, hm, heq⟩
  apply h
  rw [heq]
  simp [IsTemplate_head m hm]

theorem stripFrom_no_brace_aux (k : Nat) :
    ∀ s : List Char, s.length ≤ k →
      (∀ pre rest, s = pre ++ '\x7b' :: rest →
        ∃ m post, IsTemplate m ∧ '\x7b' :: rest = m ++ post) →
      '\x7b' ∉ stripFrom 0 s := by
  induction k with
  | zero =>
    intro s hs _
    have : s = [] := List.length_eq_zero.mp (Nat.le_zero.mp hs)
    subst this
    simp [stripFrom]
  | succ k ih =>
    intro s hs hP
    cases s with
    | nil => simp [stripFrom]
    | cons c cs =>
      cases hm : matchTemplate (c :: cs) with
      | none =>
        rw [stripFrom_keep c cs hm]
        have hc : c ≠ '\x7b' := by
          rintro rfl
          obtain ⟨n, hn⟩ := (matchTemplate_isSome_iff _).mpr (hP [] cs rfl)
          rw [hm] at hn
          cases hn
        have hrec := ih cs (by simpa using hs) (fun pre rest h =>
          hP (c :: pre) rest (by rw [h]; rfl))
        intro hmem
        rcases List.mem_cons.mp hmem with h | h
        · exact hc h.symm
        · exact hrec h
      | some n =>
        obtain ⟨mid, rest, hne, hall, hs2, -⟩ := (matchTemplate_eq_some_iff _ _).mp hm
        rw [stripFrom_match c cs mid rest hne hall hs2]
        have hlen : rest.length ≤ k := by
          have := congrArg List.length hs2
          simp at this hs
          omega
        exact ih rest hlen (fun pre rest2 h =>
          hP ('\x7b' :: '?' :: (mid ++ '\x7d' :: pre)) rest2 (by rw [hs2, h]; simp))

theorem stripTemplates_no_brace (s : String) (h : BracesOpenTemplates s) :
    '\x7b' ∉ (stripTemplates s).toList :=
  stripFrom_no_brace_aux s.toList.length s.toList (Nat.le_refl _) h


theorem BracesOpenTemplates_of_check (s : String) (h : bracesOpenTemplates s.toList = true) :
    BracesOpenTemplates s := by
  unfold BracesOpenTemplates
  generalize s.toList = l at h
  induction l with
  | nil =>
    intro pre rest heq
    simp at heq
  | cons c cs ih =>
    simp only [bracesOpenTemplates, Bool.and_eq_true, Bool.or_eq_true] at h
    intro pre rest heq
    cases pre with
    | nil =>
      simp only [List.nil_append, List.cons.injEq] at heq
      rcases heq with ⟨rfl, rfl⟩
      rcases h.1 with h1 | h1
      · simp at h1
      · obtain ⟨n, hn⟩ := Option.isSome_iff_exists.mp h1
        exact (matchTemplate_isSome_iff _).mp ⟨n, hn⟩
    | cons p pre =>
      simp only [List.cons_append, List.cons.injEq] at heq
      exact ih h.2 pre rest heq.2

end regexp

namespace service

open regexp

theorem uploadAsset_spec (L : Lib) (gh : github) (release : Release) (asset : String)
    (sent : List Request) :
    ((gh.uploadAsset L release asset sent).1 ≠ none ∧
      (gh.uploadAsset L release asset sent).2 = sent ∧
      ((∃ err, github.getUploadContent L (filepath.Clean asset) = .error err ∧
          (gh.uploadAsset L release asset sent).1 = some err) ∨
        L.parseURL (uploadURL release asset) ≠ none)) ∨
    (∃ req content, (gh.uploadAsset L release asset sent).2 = sent ++ [req] ∧
      AuthRequest gh "POST" (uploadURL release asset) req ∧
      req.URL = L.urlString (uploadURL release asset) ∧
      github.getUploadContent L (filepath.Clean asset) = .ok content ∧
      req.Body = Body.file content.Body ∧ req.ContentLength = content.Length ∧
      req.getHeader "Content-Type" = some content.MIMEType ∧
      (gh.uploadAsset L release asset sent).1 =
        match gh.client sent req with
        | .error msg => some (Error.lib msg)
        | .ok res => if res.StatusCode = 201 then none else some (NewHTTPError res)) := by
  unfold github.uploadAsset NewRequest github.Do
  simp only []
  cases hc : github.getUploadContent L (filepath.Clean asset) with
  | error err => left; simp
  | ok content =>
    simp only []
    cases hp : L.parseURL (uploadURL release asset) with
    | some msg => left; simp
    | none =>
      right
      simp only []
      apply Exists.intro
      refine ⟨content, ?_, ?_, ?_, rfl, ?_, ?_, ?_, ?_⟩
      · cases gh.client sent _ with
        | error msg => rfl
        | ok res =>
          simp only []
          split <;> rfl
      · unfold AuthRequest FixedHeaders
        simp [getHeader_setHeader_same, getHeader_setHeader_other, Request.setHeader,
            Request.getHeader, List.lookup]
      · rfl
      · rfl
      · rfl
      · simp [getHeader_setHeader_same, getHeader_setHeader_other, Request.setHeader,
            Request.getHeader, List.lookup]
      · cases gh.client sent _ with
        | error msg => rfl
        | ok res =>
          simp only []
          split <;> simp_all


theorem UploadAssets_cons_fail (L : Lib) (gh : github) (release : Release) (asset : String)
    (assets : List String) (sent : List Request) (err : Error)
    (h : (gh.uploadAsset L release asset sent).1 = some err) :
    gh.UploadAssets L release (asset :: assets) sent =
      (some err, (gh.uploadAsset L release asset sent).2) := by
  rcases hu : gh.uploadAsset L release asset sent with ⟨e, s⟩
  rw [hu] at h
  simp only at h
  subst h
  simp [github.UploadAssets, hu]

theorem UploadAssets_cons_ok (L : Lib) (gh : github) (release : Release) (asset : String)
    (assets : List String) (sent : List Request)
    (h : (gh.uploadAsset L release asset sent).1 = none) :
    gh.UploadAssets L release (asset :: assets) sent =
      gh.UploadAssets L release assets (gh.uploadAsset L release asset sent).2 := by
  rcases hu : gh.uploadAsset L release asset sent with ⟨e, s⟩
  rw [hu] at h
  simp only at h
  subst h
  simp [github.UploadAssets, hu]

theorem UploadAssets_log (L : Lib) (gh : github) (release : Release) (assets : List String) :
    ∀ sent : List Request, ∃ reqs,
      (gh.UploadAssets L release assets sent).2 = sent ++ reqs ∧
      reqs.length ≤ assets.length ∧
      (∀ req ∈ reqs, req.Method = "POST") ∧
      (∀ p ∈ reqs.zip assets, p.1.Method = "POST" ∧ p.1.rawURL = uploadURL release p.2 ∧
        p.1.URL = L.urlString (uploadURL release p.2)) ∧
      ((gh.UploadAssets L release assets sent).1 = none ↔
        (reqs.length = assets.length ∧
          ∀ j req, reqs[j]? = some req → Created gh (sent ++ reqs.take j) req)) := by
  induction assets with
  | nil =>
    intro sent
    exact ⟨[], by simp [github.UploadAssets], by simp, by simp, by simp,
      by simp [github.UploadAssets]⟩
  | cons a rest ih =>
    intro sent
    rcases uploadAsset_spec L gh release a sent with
      ⟨hne, hlog, -⟩ | ⟨req, content, hlog, hreq, hurl, -, -, -, -, hres⟩
    · obtain ⟨err, herr⟩ := Option.ne_none_iff_exists'.mp hne
      rw [UploadAssets_cons_fail L gh release a rest sent err herr, hlog]
      exact ⟨[], by simp, by simp, by simp, by simp, by simp⟩
    · cases hc : gh.client sent req with
      | error msg =>
        rw [hc] at hres
        rw [UploadAssets_cons_fail L gh release a rest sent _ hres, hlog]
        refine ⟨[req], rfl, by simp, by simp [hreq.1], ?_, ?_⟩
        · intro p hp
          simp only [List.zip_cons_cons, List.zip_nil_left, List.mem_singleton] at hp
          subst hp
          exact ⟨hreq.1, hreq.2.1, hurl⟩
        · constructor
          · intro h; cases h
          · rintro ⟨-, h⟩
            obtain ⟨res, h1, -⟩ := h 0 req rfl
            simp [hc] at h1
      | ok res =>
        rw [hc] at hres
        by_cases hs : res.StatusCode = 201
        · simp only [hs, if_true] at hres
          rw [UploadAssets_cons_ok L gh release a rest sent hres, hlog]
          obtain ⟨reqs, h1, h2, h5, h3, h4⟩ := ih (sent ++ [req])
          refine ⟨req :: reqs, by rw [h1]; simp, by simpa using h2, ?_, ?_, ?_⟩
          · intro r hr
            rcases List.mem_cons.mp hr with rfl | hr
            · exact hreq.1
            · exact h5 r hr
          · intro p hp
            simp only [List.zip_cons_cons, List.mem_cons] at hp
            rcases hp with rfl | hp
            · exact ⟨hreq.1, hreq.2.1, hurl⟩
            · exact h3 p hp
          · rw [h4]
            constructor
            · rintro ⟨hl, hall⟩
              refine ⟨by simp [hl], ?_⟩
              intro j r hj
              cases j with
              | zero =>
                simp only [List.getElem?_cons_zero, Option.some.injEq] at hj
                subst hj
                exact ⟨res, by simpa using hc, hs⟩
              | succ j =>
                simp only [List.getElem?_cons_succ] at hj
                have := hall j r hj
                simpa using this
            · rintro ⟨hl, hall⟩
              refine ⟨by simpa using hl, ?_⟩
              intro j r hj
              have := hall (j + 1) r (by simpa using hj)
              simpa using this
        · simp only [hs, if_false] at hres
          rw [UploadAssets_cons_fail L gh release a rest sent _ hres, hlog]
          refine ⟨[req], rfl, by simp, by simp [hreq.1], ?_, ?_⟩
          · intro p hp
            simp only [List.zip_cons_cons, List.zip_nil_left, List.mem_singleton] at hp
            subst hp
            exact ⟨hreq.1, hreq.2.1, hurl⟩
          · constructor
            · intro h; cases h
            · rintro ⟨-, h⟩
              obtain ⟨res2, h1, h2⟩ := h 0 req rfl
              simp only [List.take_zero, List.append_nil, hc, Except.ok.injEq] at h1
              subst h1
              exact absurd h2 hs


theorem UploadAssets_first_failure (L : Lib) (gh : github) (release : Release)
    (assets : List String) :
    ∀ (sent : List Request) (err : Error),
      (gh.UploadAssets L release assets sent).1 = some err →
      ∃ i a, assets[i]? = some a ∧
        (gh.UploadAssets L release (assets.take i) sent).1 = none ∧
        gh.uploadAsset L release a (gh.UploadAssets L release (assets.take i) sent).2 =
          (some err, (gh.UploadAssets L release assets sent).2) := by
  induction assets with
  | nil =>
    intro sent err h
    simp [github.UploadAssets] at h
  | cons a rest ih =>
    intro sent err h
    cases hu : (gh.uploadAsset L release a sent).1 with
    | some e =>
      rw [UploadAssets_cons_fail L gh release a rest sent e hu] at h ⊢
      simp only [Option.some.injEq] at h
      subst h
      refine ⟨0, a, by simp, rfl, ?_⟩
      simp only [List.take_zero, github.UploadAssets]
      rw [← hu]
    | none =>
      rw [UploadAssets_cons_ok L gh release a rest sent hu] at h ⊢
      obtain ⟨i, b, hb, h1, h2⟩ := ih _ err h
      refine ⟨i + 1, b, by simpa using hb, ?_, ?_⟩
      · rw [List.take_succ_cons, UploadAssets_cons_ok L gh release a _ sent hu]
        exact h1
      · rw [List.take_succ_cons, UploadAssets_cons_ok L gh release a _ sent hu]
        exact h2


theorem UploadAssets_single_log (L : Lib) (gh : github) (release : Release) (p : String)
    (sent : List Request) :
    (gh.UploadAssets L release [p] sent).2 = (gh.uploadAsset L release p sent).2 := by
  cases hu : (gh.uploadAsset L release p sent).1 with
  | some e => rw [UploadAssets_cons_fail L gh release p [] sent e hu]
  | none =>
    rw [UploadAssets_cons_ok L gh release p [] sent hu]
    rfl

theorem uploadURL_eq (release : Release) (p : String) :
    uploadURL release p =
      stripTemplates release.UploadURL ++ "?name=" ++
        url.QueryEscape (filepath.Base (filepath.Clean p)) := rfl

theorem HasTemplate_uploadURL_iff (release : Release) (p : String) :
    HasTemplate (stripTemplates release.UploadURL ++ "?name=" ++
        url.QueryEscape (filepath.Base (filepath.Clean p))) ↔
      HasTemplate (stripTemplates release.UploadURL) := by
  rw [String.append_assoc]
  apply HasTemplate_append_iff
  intro c hc
  have : c ∈ "?name=".toList ++
      (url.QueryEscape (filepath.Base (filepath.Clean p))).toList := by
    have h2 : ("?name=" ++ url.QueryEscape (filepath.Base (filepath.Clean p))).toList =
        "?name=".toList ++ (url.QueryEscape (filepath.Base (filepath.Clean p))).toList :=
      String.data_append _ _
    rw [← h2]
    exact hc
  rcases List.mem_append.mp this with h | h
  · intro hc2
    subst hc2
    revert h
    decide
  · exact url.QueryEscape_ne_brace _ c h

/-- C8 (as stated, refuted): for an upload endpoint with one template segment
inside another in its query, the URL of the request still contains a template
segment; and for one with such a nesting in its path, the URL of the request
is not the endpoint with its segments removed followed by the name, because
the brace left in the path is sent as `%7B`. -/
theorem C8_requested_url_counterexample :
    (((NewGithub (answer 201) "tok").UploadAssets uploadLib queryNestedRelease
          ["bin/my app"] []).2.map (fun r => r.URL) =
        ["https://h/a?x=\x7b?b\x7d?name=my+app"] ∧
      HasTemplate "https://h/a?x=\x7b?b\x7d?name=my+app") ∧
    ((NewGithub (answer 201) "tok").UploadAssets uploadLib nestedRelease
        ["bin/my app"] []).2.map (fun r => (r.rawURL, r.URL)) =
      [("https://uploads.github.com/repos/o/r/releases/1/assets\x7b?name,label\x7d?name=my+app",
        "https://uploads.github.com/repos/o/r/releases/1/assets%7B?name,label\x7d?name=my+app")] := by
  refine ⟨⟨by decide, "https://h/a?x=".toList, "\x7b?b\x7d".toList, "?name=my+app".toList,
    ⟨"b".toList, by decide, by decide, by decide⟩, by decide⟩, by decide⟩

/-- C8 (amended): the URL string `UploadAssets` hands to `http.NewRequest` for
an asset equals the upload endpoint with its template segments removed in one
pass from the left, followed by `?name=` and the query-escaped base name of the
cleaned path, and the request carries that string as `http.NewRequest` parses
it; one request is sent when the file can be read and the string parses. The
escaped name is made of letters, digits and `-_.~+%` only, so the string
contains a template segment only if the stripped endpoint does, and it
contains none when every opening brace of the endpoint begins a template
segment. -/
theorem C8_upload_url (L : Lib) (gh : github) (sent : List Request) (release : Release)
    (p : String) :
    (∀ req ∈ newRequests sent (gh.UploadAssets L release [p] sent).2,
      req.rawURL = stripTemplates release.UploadURL ++ "?name=" ++
        url.QueryEscape (filepath.Base (filepath.Clean p)) ∧
      req.URL = L.urlString req.rawURL) ∧
    ((∃ content, github.getUploadContent L (filepath.Clean p) = .ok content) →
      L.parseURL (stripTemplates release.UploadURL ++ "?name=" ++
        url.QueryEscape (filepath.Base (filepath.Clean p))) = none →
      (newRequests sent (gh.UploadAssets L release [p] sent).2).length = 1) ∧
    Removed release.UploadURL.toList (stripTemplates release.UploadURL).toList ∧
    (∀ c ∈ (url.QueryEscape (filepath.Base (filepath.Clean p))).toList,
      url.isEscapedChar c = true) ∧
    (HasTemplate (stripTemplates release.UploadURL ++ "?name=" ++
        url.QueryEscape (filepath.Base (filepath.Clean p))) ↔
      HasTemplate (stripTemplates release.UploadURL)) ∧
    (BracesOpenTemplates release.UploadURL →
      ¬ HasTemplate (stripTemplates release.UploadURL ++ "?name=" ++
        url.QueryEscape (filepath.Base (filepath.Clean p)))) := by
  have hiff := HasTemplate_uploadURL_iff release p
  refine ⟨?_, ?_, Removed_stripTemplates _, url.QueryEscape_chars _, hiff, fun hb hh => ?_⟩
  · rw [UploadAssets_single_log]
    rcases uploadAsset_spec L gh release p sent with
      ⟨-, hlog, -⟩ | ⟨req, content, hlog, hreq, hurl, -⟩
    · rw [hlog, newRequests_self]
      intro req hreq
      cases hreq
    · rw [hlog, newRequests_append]
      intro r hr
      simp only [List.mem_singleton] at hr
      subst hr
      rw [hreq.2.1, hurl, uploadURL_eq]
      exact ⟨rfl, rfl⟩
  · rintro ⟨content, hcontent⟩ hparse
    rw [UploadAssets_single_log]
    rcases uploadAsset_spec L gh release p sent with
      ⟨-, -, ⟨err, herr, -⟩ | hne⟩ | ⟨req, -, hlog, -⟩
    · rw [hcontent] at herr
      cases herr
    · exact absurd hparse hne
    · rw [hlog, newRequests_append]
      rfl
  · exact not_HasTemplate_of_no_brace _ (stripTemplates_no_brace _ hb) (hiff.mp hh)

/-- Witness for C8 (amended): for the upload endpoint GitHub returns and the
path `bin/my app`, one request is sent, to the URL ending in
`assets?name=my+app`, which contains no template segment. -/
theorem C8_upload_url_witness :
    ((NewGithub (answer 201) "tok").UploadAssets uploadLib sampleRelease
        ["bin/my app"] []).2.map (fun r => (r.rawURL, r.URL)) =
      [("https://uploads.github.com/repos/o/r/releases/1/assets?name=my+app",
        "https://uploads.github.com/repos/o/r/releases/1/assets?name=my+app")] ∧
    ¬ HasTemplate (stripTemplates sampleRelease.UploadURL ++ "?name=" ++
        url.QueryEscape (filepath.Base (filepath.Clean "bin/my app"))) :=
  ⟨by decide,
    (C8_upload_url uploadLib (NewGithub (answer 201) "tok") [] sampleRelease
      "bin/my app").2.2.2.2.2 (BracesOpenTemplates_of_check _ (by decide))⟩

/-- C9: `UploadAssets` fails on the first error and does not roll back. For the
empty list it returns nil and sends nothing. The requests it sends are POST
requests (no delete), one per asset in list order, at most as many as there
are assets; it returns nil iff every asset was sent and answered with 201; and
when it returns an error, some asset `i` is the first to fail: the assets
before it succeeded, the error is the one of asset `i`, and the requests sent
end with the iteration of asset `i`, so at most `i + 1` requests were sent. -/
theorem C9_upload_fails_first (L : Lib) (gh : github) (release : Release)
    (assets : List String) (sent : List Request) :
    gh.UploadAssets L release [] sent = (none, sent) ∧
    (∃ reqs,
      (gh.UploadAssets L release assets sent).2 = sent ++ reqs ∧
      reqs.length ≤ assets.length ∧
      (∀ req ∈ reqs, req.Method = "POST") ∧
      (∀ p ∈ reqs.zip assets, p.1.Method = "POST" ∧ p.1.rawURL = uploadURL release p.2 ∧
        p.1.URL = L.urlString (uploadURL release p.2)) ∧
      ((gh.UploadAssets L release assets sent).1 = none ↔
        (reqs.length = assets.length ∧
          ∀ j req, reqs[j]? = some req → Created gh (sent ++ reqs.take j) req))) ∧
    (∀ err, (gh.UploadAssets L release assets sent).1 = some err →
      ∃ i a, assets[i]? = some a ∧
        (gh.UploadAssets L release (assets.take i) sent).1 = none ∧
        gh.uploadAsset L release a (gh.UploadAssets L release (assets.take i) sent).2 =
          (some err, (gh.UploadAssets L release assets sent).2) ∧
        (newRequests sent (gh.UploadAssets L release assets sent).2).length ≤ i + 1) := by
  refine ⟨rfl, UploadAssets_log L gh release assets sent, ?_⟩
  intro err herr
  obtain ⟨i, a, ha, h1, h2⟩ := UploadAssets_first_failure L gh release assets sent err herr
  refine ⟨i, a, ha, h1, h2, ?_⟩
  obtain ⟨reqs, hlog, hlen, -, -, -⟩ := UploadAssets_log L gh release (assets.take i) sent
  have hlen2 : reqs.length ≤ i := by
    have : (assets.take i).length ≤ i := by simp
    omega
  have hfin : (gh.UploadAssets L release assets sent).2 =
      (gh.uploadAsset L release a (gh.UploadAssets L release (assets.take i) sent).2).2 := by
    rw [h2]
  rcases uploadAsset_spec L gh release a (gh.UploadAssets L release (assets.take i) sent).2 with
    ⟨-, hl, -⟩ | ⟨req, content, hl, -⟩
  · rw [hfin, hl, hlog, newRequests_append]
    omega
  · rw [hfin, hl, hlog, List.append_assoc, newRequests_append]
    simp
    omega

/-- Witness for C9: of three assets the second does not exist; the call returns
its error after one request, and nothing is sent for the third. -/
theorem C9_upload_fails_first_witness :
    (((NewGithub (answer 201) "tok").UploadAssets sampleLib sampleRelease sampleAssets []).1 =
      some (Error.lib "no such file or directory")) ∧
    (newRequests []
      ((NewGithub (answer 201) "tok").UploadAssets sampleLib sampleRelease sampleAssets []).2).length
        = 1 ∧
    ∃ i a, sampleAssets[i]? = some a ∧
      ((NewGithub (answer 201) "tok").UploadAssets sampleLib sampleRelease
        (sampleAssets.take i) []).1 = none ∧
      (NewGithub (answer 201) "tok").uploadAsset sampleLib sampleRelease a
          ((NewGithub (answer 201) "tok").UploadAssets sampleLib sampleRelease
            (sampleAssets.take i) []).2 =
        (some (Error.lib "no such file or directory"),
          ((NewGithub (answer 201) "tok").UploadAssets sampleLib sampleRelease sampleAssets []).2) ∧
      (newRequests [] ((NewGithub (answer 201) "tok").UploadAssets sampleLib sampleRelease
        sampleAssets []).2).length ≤ i + 1 :=
  ⟨by decide, by decide,
    (C9_upload_fails_first sampleLib (NewGithub (answer 201) "tok") sampleRelease sampleAssets
      []).2.2 (Error.lib "no such file or directory") (by decide)⟩


theorem EditRelease_requests (L : Lib) (gh : github) (repo : String) (releaseID : Int)
    (input : ReleaseInput) (sent : List Request) :
    (L.parseURL (gh.apiAddr ++ "/repos/" ++ repo ++ "/releases/" ++ toString releaseID) ≠ none ∧
      (gh.EditRelease L repo releaseID input sent).2 = sent) ∨
    (L.parseURL (gh.apiAddr ++ "/repos/" ++ repo ++ "/releases/" ++ toString releaseID) = none ∧
      ∃ req, (gh.EditRelease L repo releaseID input sent).2 = sent ++ [req] ∧
        AuthRequest gh "PATCH"
          (gh.apiAddr ++ "/repos/" ++ repo ++ "/releases/" ++ toString releaseID) req) := by
  unfold github.EditRelease NewRequest github.Do
  simp only []
  cases hp : L.parseURL (gh.apiAddr ++ "/repos/" ++ repo ++ "/releases/" ++
      toString releaseID) with
  | some msg => left; simp
  | none =>
    right
    refine ⟨rfl, ?_⟩
    simp only []
    apply Exists.intro
    refine ⟨?_, ?_⟩
    · cases gh.client sent _ with
      | error msg => rfl
      | ok res =>
        simp only []
        split
        · rfl
        · split <;> rfl
    · unfold AuthRequest FixedHeaders
      simp [getHeader_setHeader_same, getHeader_setHeader_other, Request.setHeader,
          Request.getHeader, List.lookup]

theorem forall_newRequests (P : Request → Prop) (sent after : List Request)
    (h : after = sent ∨ ∃ req, after = sent ++ [req] ∧ P req) :
    ∀ req ∈ newRequests sent after, P req := by
  intro req hreq
  rcases h with h | ⟨r, h, hr⟩
  · simp [h, newRequests_self] at hreq
  · simp only [h, newRequests_append, List.mem_singleton] at hreq
    subst hreq
    exact hr

theorem UploadAssets_headers (L : Lib) (gh : github) (release : Release)
    (assets : List String) :
    ∀ sent : List Request, ∃ reqs,
      (gh.UploadAssets L release assets sent).2 = sent ++ reqs ∧
      ∀ req ∈ reqs, FixedHeaders req ∧ req.getHeader "Authorization" = some gh.authHeader := by
  induction assets with
  | nil =>
    intro sent
    exact ⟨[], by simp [github.UploadAssets], by simp⟩
  | cons a rest ih =>
    intro sent
    rcases uploadAsset_spec L gh release a sent with
      ⟨hne, hlog, -⟩ | ⟨req, content, hlog, hreq, -, -, -, -, -, -⟩
    · obtain ⟨err, herr⟩ := Option.ne_none_iff_exists'.mp hne
      rw [UploadAssets_cons_fail L gh release a rest sent err herr, hlog]
      exact ⟨[], by simp, by simp⟩
    · cases hu : (gh.uploadAsset L release a sent).1 with
      | some e =>
        rw [UploadAssets_cons_fail L gh release a rest sent e hu, hlog]
        exact ⟨[req], rfl, by simp [hreq.2.2.1, hreq.2.2.2]⟩
      | none =>
        rw [UploadAssets_cons_ok L gh release a rest sent hu, hlog]
        obtain ⟨reqs, h1, h2⟩ := ih (sent ++ [req])
        refine ⟨req :: reqs, by rw [h1]; simp, ?_⟩
        intro r hr
        rcases List.mem_cons.mp hr with rfl | hr
        · exact ⟨hreq.2.2.1, hreq.2.2.2⟩
        · exact h2 r hr


/-- C10: every request sent by one of the seven operations of a client built
by `NewGithub token` carries `User-Agent: moorara/cherry` and
`Accept: application/vnd.github.v3+json`; every request of the four mutating
operations carries `Authorization: token <token>`, the empty token included. -/
theorem C10_request_headers (L : Lib)
    (client : List Request → Request → Except String Response) (token repo branch : String)
    (enabled : Bool) (input : ReleaseInput) (releaseID : Int) (version : SemVer)
    (release : Release) (assets : List String) (sent : List Request) :
    (∀ req ∈
        newRequests sent
          ((NewGithub client token).BranchProtectionForAdmin L repo branch enabled sent).2 ++
        (newRequests sent ((NewGithub client token).CreateRelease L repo input sent).2 ++
        (newRequests sent ((NewGithub client token).EditRelease L repo releaseID input sent).2 ++
        newRequests sent ((NewGithub client token).UploadAssets L release assets sent).2)),
      req.getHeader "User-Agent" = some "moorara/cherry" ∧
      req.getHeader "Accept" = some "application/vnd.github.v3+json" ∧
      req.getHeader "Authorization" = some ("token " ++ token)) ∧
    (∀ req ∈
        newRequests sent ((NewGithub client token).GetRelease L repo version sent).2 ++
        (newRequests sent ((NewGithub client token).GetReleases L repo sent).2 ++
        newRequests sent ((NewGithub client token).GetLatestRelease L repo sent).2),
      req.getHeader "User-Agent" = some "moorara/cherry" ∧
      req.getHeader "Accept" = some "application/vnd.github.v3+json") := by
  constructor
  · intro req hreq
    have key : FixedHeaders req ∧
        req.getHeader "Authorization" = some (NewGithub client token).authHeader := by
      simp only [List.mem_append] at hreq
      rcases hreq with h | h | h | h
      · refine forall_newRequests (fun r => FixedHeaders r ∧
          r.getHeader "Authorization" = some (NewGithub client token).authHeader) sent _ ?_ req h
        rcases BranchProtectionForAdmin_spec L (NewGithub client token) repo branch enabled sent
          with ⟨-, -, e⟩ | ⟨-, r, e, hr, -⟩
        · exact Or.inl e
        · exact Or.inr ⟨r, e, hr.2.2⟩
      · refine forall_newRequests (fun r => FixedHeaders r ∧
          r.getHeader "Authorization" = some (NewGithub client token).authHeader) sent _ ?_ req h
        rcases CreateRelease_spec L (NewGithub client token) repo input sent
          with ⟨-, -, -, e⟩ | ⟨-, r, e, hr, -⟩
        · exact Or.inl e
        · exact Or.inr ⟨r, e, hr.2.2⟩
      · refine forall_newRequests (fun r => FixedHeaders r ∧
          r.getHeader "Authorization" = some (NewGithub client token).authHeader) sent _ ?_ req h
        rcases EditRelease_requests L (NewGithub client token) repo releaseID input sent
          with ⟨-, e⟩ | ⟨-, r, e, hr⟩
        · exact Or.inl e
        · exact Or.inr ⟨r, e, hr.2.2⟩
      · obtain ⟨reqs, e, hall⟩ :=
          UploadAssets_headers L (NewGithub client token) release assets sent
        rw [e, newRequests_append] at h
        exact hall req h
    exact ⟨key.1.1, key.1.2, key.2⟩
  · intro req hreq
    have key : FixedHeaders req := by
      simp only [List.mem_append] at hreq
      rcases hreq with h | h | h
      · refine forall_newRequests _ sent _ ?_ req h
        rcases GetRelease_requests L (NewGithub client token) repo version sent
          with ⟨-, e⟩ | ⟨-, r, e, hr⟩
        · exact Or.inl e
        · exact Or.inr ⟨r, e, hr.2.2.1⟩
      · refine forall_newRequests _ sent _ ?_ req h
        rcases GetReleases_requests L (NewGithub client token) repo sent
          with ⟨-, e⟩ | ⟨-, r, e, hr⟩
        · exact Or.inl e
        · exact Or.inr ⟨r, e, hr.2.2.1⟩
      · refine forall_newRequests _ sent _ ?_ req h
        rcases GetLatestRelease_requests L (NewGithub client token) repo sent
          with ⟨-, e⟩ | ⟨-, r, e, hr⟩
        · exact Or.inl e
        · exact Or.inr ⟨r, e, hr.2.2.1⟩
    exact ⟨key.1, key.2⟩

/-- Witness for C10: with the empty token, `UploadAssets` sends one request for
`bin/app`, and it carries the three headers, the authorization being `token `. -/
theorem C10_request_headers_witness :
    (newRequests []
      ((NewGithub (answer 201) "").UploadAssets sampleLib sampleRelease ["bin/app"] []).2).length
        = 1 ∧
    ∀ req ∈ newRequests []
        ((NewGithub (answer 201) "").UploadAssets sampleLib sampleRelease ["bin/app"] []).2,
      req.getHeader "User-Agent" = some "moorara/cherry" ∧
      req.getHeader "Accept" = some "application/vnd.github.v3+json" ∧
      req.getHeader "Authorization" = some ("token " ++ "") :=
  ⟨by decide, fun req hreq =>
    (C10_request_headers sampleLib (answer 201) "" "o/r" "master" true sampleInput 1 ⟨1, 5, 0⟩
      sampleRelease ["bin/app"] []).1 req
      (List.mem_append_right _ (List.mem_append_right _ (List.mem_append_right _ hreq)))⟩


theorem UploadAssets_append (L : Lib) (gh : github) (release : Release)
    (pre rest : List String) :
    ∀ sent : List Request, (gh.UploadAssets L release pre sent).1 = none →
      gh.UploadAssets L release (pre ++ rest) sent =
        gh.UploadAssets L release rest (gh.UploadAssets L release pre sent).2 := by
  induction pre with
  | nil => intro sent _; rfl
  | cons a pre ih =>
    intro sent h
    cases hu : (gh.uploadAsset L release a sent).1 with
    | some e =>
      rw [UploadAssets_cons_fail L gh release a pre sent e hu] at h
      cases h
    | none =>
      rw [UploadAssets_cons_ok L gh release a pre sent hu] at h ⊢
      rw [List.cons_append, UploadAssets_cons_ok L gh release a _ sent hu]
      exact ih _ h

theorem getUploadContent_empty (L : Lib) (path : String) (file : File)
    (hopen : L.osOpen path = .ok file) (hlen : file.content.length = 0) :
    (∃ err, github.getUploadContent L path = .error err) ∧
    (file.statErr = none → file.readErr = none →
      github.getUploadContent L path = .error (Error.lib "EOF")) := by
  have hc : file.content = [] := List.length_eq_zero.mp hlen
  unfold github.getUploadContent Lib.Open File.Read512
  simp only [hopen, hc]
  cases hs : file.statErr with
  | some msg => simp
  | none =>
    cases hr : file.readErr with
    | some msg => simp
    | none => simp

theorem getUploadContent_nonempty (L : Lib) (path : String) (file : File)
    (hopen : L.osOpen path = .ok file) (hlen : 1 ≤ file.content.length)
    (hstat : file.statErr = none) (hread : file.readErr = none) (hseek : file.seekErr = none) :
    github.getUploadContent L path =
      .ok { Body := { file with offset := 0 }, Length := (file.content.length : Int),
            MIMEType := L.DetectContentType (head512 file.content) } := by
  have hc : file.content ≠ [] := by
    intro h
    rw [h] at hlen
    simp at hlen
  unfold github.getUploadContent Lib.Open File.Read512 head512
  simp [hopen, hstat, hread, hseek, hc]


/-- C13: `getUploadContent` rejects empty files. For a file of length 0 it
returns an error and no content, and when neither `Stat` nor `Read` fails
otherwise that error is the end-of-file of the read of the leading 512 bytes;
`UploadAssets` then returns that error with no request sent for that asset nor
for any asset after it. For a readable file of length n ≥ 1 it succeeds with
Length = n and the body back at offset 0. -/
theorem C13_empty_file_rejected (L : Lib) (gh : github) (release : Release) :
    (∀ path file, L.osOpen path = .ok file → file.content.length = 0 →
      (∃ err, github.getUploadContent L path = .error err) ∧
      (file.statErr = none → file.readErr = none →
        github.getUploadContent L path = .error (Error.lib "EOF"))) ∧
    (∀ asset file pre rest sent, L.osOpen (filepath.Clean asset) = .ok file →
      file.content.length = 0 → (gh.UploadAssets L release pre sent).1 = none →
      ∃ err, github.getUploadContent L (filepath.Clean asset) = .error err ∧
        gh.UploadAssets L release (pre ++ asset :: rest) sent =
          (some err, (gh.UploadAssets L release pre sent).2)) ∧
    (∀ path file, L.osOpen path = .ok file → 1 ≤ file.content.length →
      file.statErr = none → file.readErr = none → file.seekErr = none →
      ∃ content, github.getUploadContent L path = .ok content ∧
        content.Length = (file.content.length : Int) ∧
        content.Body.offset = 0 ∧ content.Body.content = file.content ∧
        content.MIMEType = L.DetectContentType (head512 file.content)) := by
  refine ⟨fun path file ho hl => getUploadContent_empty L path file ho hl, ?_, ?_⟩
  · intro asset file pre rest sent ho hl hpre
    obtain ⟨err, herr⟩ := (getUploadContent_empty L _ file ho hl).1
    refine ⟨err, herr, ?_⟩
    rw [UploadAssets_append L gh release pre (asset :: rest) sent hpre]
    have hu : gh.uploadAsset L release asset (gh.UploadAssets L release pre sent).2 =
        (some err, (gh.UploadAssets L release pre sent).2) := by
      unfold github.uploadAsset
      simp only [herr]
    have h1 : (gh.uploadAsset L release asset (gh.UploadAssets L release pre sent).2).1 =
        some err := by rw [hu]
    rw [UploadAssets_cons_fail L gh release asset rest _ err h1, hu]
  · intro path file ho hl hs hr hk
    exact ⟨_, getUploadContent_nonempty L path file ho hl hs hr hk, rfl, rfl, rfl, rfl⟩

/-- Witness for C13: the second of three assets is an empty file; the call
returns the end-of-file error after the one request of the first asset. -/
theorem C13_empty_file_rejected_witness :
    (newRequests []
      ((NewGithub (answer 201) "tok").UploadAssets emptyFileLib sampleRelease
        (["bin/app"] ++ "bin/empty" :: ["bin/app"]) []).2).length = 1 ∧
    ∃ err, github.getUploadContent emptyFileLib (filepath.Clean "bin/empty") = .error err ∧
      (NewGithub (answer 201) "tok").UploadAssets emptyFileLib sampleRelease
          (["bin/app"] ++ "bin/empty" :: ["bin/app"]) [] =
        (some err,
          ((NewGithub (answer 201) "tok").UploadAssets emptyFileLib sampleRelease
            ["bin/app"] []).2) :=
  ⟨by decide,
    (C13_empty_file_rejected emptyFileLib (NewGithub (answer 201) "tok") sampleRelease).2.1
      "bin/empty" { content := [], offset := 0, statErr := none, readErr := none, seekErr := none }
      ["bin/app"] ["bin/app"] [] (by rfl) (by decide) (by decide)⟩

end service

namespace spec

theorem Build_SetDefaults_eq (getwd : Except String String) (b : Build) :
    b.SetDefaults getwd =
      { CrossCompile := b.CrossCompile,
        MainFile := if b.MainFile = "" then defaultMainFile else b.MainFile,
        BinaryFile := if b.BinaryFile = "" then defaultBinaryFile getwd else b.BinaryFile,
        VersionPackage :=
          if b.VersionPackage = "" then defaultVersionPackage else b.VersionPackage,
        GoVersions := if b.GoVersions = [] then defaultGoVersions else b.GoVersions,
        Platforms := if b.Platforms = [] then defaultPlatforms else b.Platforms } := by
  rcases b with ⟨cc, mf, bf, vp, gv, pl⟩
  simp only [Build.SetDefaults, List.length_eq_zero]
  by_cases h1 : mf = "" <;> by_cases h2 : bf = "" <;> by_cases h3 : vp = "" <;>
    by_cases h4 : gv = [] <;> by_cases h5 : pl = [] <;> simp [h1, h2, h3, h4, h5]

theorem Release_SetDefaults_eq (r : Release) :
    r.SetDefaults =
      { Model := if r.Model = "" then defaultModel else r.Model, Build := r.Build } := by
  rcases r with ⟨m, b⟩
  simp only [Release.SetDefaults]
  by_cases h : m = "" <;> simp [h]

theorem Spec_SetDefaults_eq (getwd : Except String String) (s : Spec) :
    s.SetDefaults getwd =
      { ToolName := if s.ToolName = "" then defaultToolName else s.ToolName,
        ToolVersion := s.ToolVersion,
        Version := if s.Version = "" then defaultVersion else s.Version,
        Language := if s.Language = "" then defaultLanguage else s.Language,
        VersionFile := s.VersionFile,
        Build := s.Build.SetDefaults getwd,
        Release := s.Release.SetDefaults } := by
  rcases s with ⟨tn, tv, v, l, vf, b, r⟩
  simp only [Spec.SetDefaults]
  by_cases h1 : tn = "" <;> by_cases h2 : v = "" <;> by_cases h3 : l = "" <;>
    simp [h1, h2, h3]


/-- C11 (as stated, refuted): a specification with every field populated except
the tool name and the tool version gets its tool name filled, but its tool
version is still empty after `SetDefaults`, whatever the working directory. -/
theorem C11_tool_version_counterexample :
    populatedSpec.ToolVersion = "" ∧
    (∀ getwd, (populatedSpec.SetDefaults getwd).ToolVersion = "") ∧
    populatedSpec.SetDefaults (.ok "/home/me/cherry") =
      { populatedSpec with ToolName := "cherry" } := by
  refine ⟨rfl, fun getwd => ?_, by decide⟩
  rw [Spec_SetDefaults_eq]
  rfl

/-- C11 (amended): after `SetDefaults` every field that was non-empty keeps its
value and every empty field that has a default (ToolName, Version, Language,
Build.MainFile, Build.BinaryFile, Build.VersionPackage, Build.GoVersions,
Build.Platforms, Release.Model) holds it; ToolVersion, VersionFile and the two
booleans are never changed. The empty specification becomes the all-defaults
one, and a specification whose defaultable fields other than the tool name are
populated changes in nothing but the tool name. -/
theorem C11_SetDefaults (getwd : Except String String) (s : Spec) :
    ((s.SetDefaults getwd).ToolName = (if s.ToolName = "" then "cherry" else s.ToolName) ∧
      (s.SetDefaults getwd).ToolVersion = s.ToolVersion ∧
      (s.SetDefaults getwd).Version = (if s.Version = "" then "1.0" else s.Version) ∧
      (s.SetDefaults getwd).Language = (if s.Language = "" then "go" else s.Language) ∧
      (s.SetDefaults getwd).VersionFile = s.VersionFile) ∧
    ((s.SetDefaults getwd).Build.CrossCompile = s.Build.CrossCompile ∧
      (s.SetDefaults getwd).Build.MainFile =
        (if s.Build.MainFile = "" then "main.go" else s.Build.MainFile) ∧
      (s.SetDefaults getwd).Build.BinaryFile =
        (if s.Build.BinaryFile = "" then defaultBinaryFile getwd else s.Build.BinaryFile) ∧
      (s.SetDefaults getwd).Build.VersionPackage =
        (if s.Build.VersionPackage = "" then "./cmd/version" else s.Build.VersionPackage) ∧
      (s.SetDefaults getwd).Build.GoVersions =
        (if s.Build.GoVersions = [] then ["1.13"] else s.Build.GoVersions) ∧
      (s.SetDefaults getwd).Build.Platforms =
        (if s.Build.Platforms = [] then defaultPlatforms else s.Build.Platforms)) ∧
    ((s.SetDefaults getwd).Release.Model =
        (if s.Release.Model = "" then "master" else s.Release.Model) ∧
      (s.SetDefaults getwd).Release.Build = s.Release.Build) ∧
    emptySpec.SetDefaults getwd =
      { ToolName := "cherry", ToolVersion := "", Version := "1.0", Language := "go",
        VersionFile := "",
        Build := { CrossCompile := false, MainFile := "main.go",
                   BinaryFile := defaultBinaryFile getwd, VersionPackage := "./cmd/version",
                   GoVersions := ["1.13"], Platforms := defaultPlatforms },
        Release := { Model := "master", Build := false } } ∧
    (s.Version ≠ "" ∧ s.Language ≠ "" ∧ s.Build.MainFile ≠ "" ∧ s.Build.BinaryFile ≠ "" ∧
        s.Build.VersionPackage ≠ "" ∧ s.Build.GoVersions ≠ [] ∧ s.Build.Platforms ≠ [] ∧
        s.Release.Model ≠ "" →
      s.SetDefaults getwd =
        { s with ToolName := if s.ToolName = "" then "cherry" else s.ToolName }) := by
  rw [Spec_SetDefaults_eq, Build_SetDefaults_eq, Release_SetDefaults_eq]
  refine ⟨⟨rfl, rfl, rfl, rfl, rfl⟩, ⟨rfl, rfl, rfl, rfl, rfl, rfl⟩, ⟨rfl, rfl⟩, ?_, ?_⟩
  · rw [Spec_SetDefaults_eq, Build_SetDefaults_eq, Release_SetDefaults_eq]
    rfl
  · rintro ⟨h1, h2, h3, h4, h5, h6, h7, h8⟩
    rcases s with ⟨tn, tv, v, l, vf, ⟨cc, mf, bf, vp, gv, pl⟩, ⟨m, rb⟩⟩
    simp only at h1 h2 h3 h4 h5 h6 h7 h8
    simp [h1, h2, h3, h4, h5, h6, h7, h8, defaultToolName]

/-- Witness for C11 (amended): the populated specification changes in nothing
but its tool name. -/
theorem C11_SetDefaults_witness :
    populatedSpec.SetDefaults (.ok "/home/me/cherry") =
      { populatedSpec with ToolName := "cherry" } :=
  (C11_SetDefaults (.ok "/home/me/cherry") populatedSpec).2.2.2.2 (by decide)


theorem Read_eq (fs : String → OpenResult) (D : Decoders) :
    Read fs D =
      match fs "cherry.yml" with
      | OpenResult.opened f => decoded (D.decodeYAML f)
      | OpenResult.failed msg => (none, some (ReadError.lib msg))
      | OpenResult.notExist =>
        match fs "cherry.yaml" with
        | OpenResult.opened f => decoded (D.decodeYAML f)
        | OpenResult.failed msg => (none, some (ReadError.lib msg))
        | OpenResult.notExist =>
          match fs "cherry.json" with
          | OpenResult.opened f => decoded (D.decodeJSON f)
          | OpenResult.failed msg => (none, some (ReadError.lib msg))
          | OpenResult.notExist =>
            (none, some (ReadError.specError
              { err := "no spec file found", SpecNotFound := true })) := by
  have e1 : filepath.Ext "cherry.yml" = ".yml" := by decide
  have e2 : filepath.Ext "cherry.yaml" = ".yaml" := by decide
  have e3 : filepath.Ext "cherry.json" = ".json" := by decide
  have c1 : filepath.Clean "cherry.yml" = "cherry.yml" := by decide
  have c2 : filepath.Clean "cherry.yaml" = "cherry.yaml" := by decide
  have c3 : filepath.Clean "cherry.json" = "cherry.json" := by decide
  simp only [Read, specFiles, readFiles, e1, e2, e3, c1, c2, c3]
  cases fs "cherry.yml" with
  | opened f => simp [decoded]
  | failed msg => rfl
  | notExist =>
    simp only []
    cases fs "cherry.yaml" with
    | opened f => simp [decoded]
    | failed msg => rfl
    | notExist =>
      simp only []
      cases fs "cherry.json" with
      | opened f => simp [decoded]
      | failed msg => rfl
      | notExist => rfl

theorem decoded_not_both (r : Except String Spec) :
    ¬ ((decoded r).1 ≠ none ∧ (decoded r).2 ≠ none) := by
  cases r <;> simp [decoded]

theorem decodeYAML_of_bad (D : Decoders) (content : List Nat)
    (h : content = [] ∨ ∃ msg, D.yaml content = .error msg) :
    ∃ msg, D.decodeYAML content = .error msg := by
  unfold Decoders.decodeYAML
  by_cases hc : content = []
  · exact ⟨"EOF", by simp [hc]⟩
  · rcases h with h | ⟨msg, h⟩
    · exact absurd h hc
    · exact ⟨msg, by simp [hc, h]⟩

theorem decodeJSON_of_bad (D : Decoders) (content : List Nat)
    (h : content = [] ∨ ∃ msg, D.json content = .error msg) :
    ∃ msg, D.decodeJSON content = .error msg := by
  unfold Decoders.decodeJSON
  by_cases hc : content = []
  · exact ⟨"EOF", by simp [hc]⟩
  · rcases h with h | ⟨msg, h⟩
    · exact absurd h hc
    · exact ⟨msg, by simp [hc, h]⟩


/-- C12 (as stated, refuted): with `cherry.yml` holding the document
`version: v1` next to an empty `cherry.yaml`, a spec file exists that is empty,
yet `Read` returns the specification decoded from `cherry.yml` and no error. -/
theorem C12_second_file_counterexample :
    twoFiles "cherry.yml" = OpenResult.opened ("version: v1\n".toList.map Char.toNat) ∧
    twoFiles "cherry.yaml" = OpenResult.opened [] ∧
    Undecodable twoFiles sampleDecoders.yaml "cherry.yaml" ∧
    Read twoFiles sampleDecoders = (some { emptySpec with Version := "v1" }, none) := by
  refine ⟨rfl, rfl, ⟨[], rfl, Or.inl rfl⟩, ?_⟩
  rw [Read_eq]
  decide

/-- C12 (amended): `Read` returns either a specification or an error, never
both; when none of `cherry.yml`, `cherry.yaml`, `cherry.json` exists it returns
a nil specification and the error with `SpecNotFound` set; when the first of
them that exists, in this order, is empty or cannot be decoded it returns a nil
specification and an error that is not a `SpecNotFound` error; and
`SpecNotFound` is reported only when all three are absent. -/
theorem C12_Read (fs : String → OpenResult) (D : Decoders) :
    ¬ ((Read fs D).1 ≠ none ∧ (Read fs D).2 ≠ none) ∧
    (fs "cherry.yml" = OpenResult.notExist ∧ fs "cherry.yaml" = OpenResult.notExist ∧
        fs "cherry.json" = OpenResult.notExist →
      Read fs D = (none, some (ReadError.specError
        { err := "no spec file found", SpecNotFound := true }))) ∧
    ((Undecodable fs D.yaml "cherry.yml" ∨
        (fs "cherry.yml" = OpenResult.notExist ∧ Undecodable fs D.yaml "cherry.yaml") ∨
        (fs "cherry.yml" = OpenResult.notExist ∧ fs "cherry.yaml" = OpenResult.notExist ∧
          Undecodable fs D.json "cherry.json")) →
      (Read fs D).1 = none ∧ ∃ e, (Read fs D).2 = some e ∧ e.SpecNotFound = false) ∧
    (∀ e, (Read fs D).2 = some e → e.SpecNotFound = true →
      fs "cherry.yml" = OpenResult.notExist ∧ fs "cherry.yaml" = OpenResult.notExist ∧
        fs "cherry.json" = OpenResult.notExist) := by
  rw [Read_eq]
  refine ⟨?_, ?_, ?_, ?_⟩
  · cases fs "cherry.yml" with
    | opened f => exact decoded_not_both _
    | failed msg => simp
    | notExist =>
      cases fs "cherry.yaml" with
      | opened f => exact decoded_not_both _
      | failed msg => simp
      | notExist =>
        cases fs "cherry.json" with
        | opened f => exact decoded_not_both _
        | failed msg => simp
        | notExist => simp
  · rintro ⟨h1, h2, h3⟩
    simp [h1, h2, h3]
  · rintro (⟨c, hc, hbad⟩ | ⟨h1, c, hc, hbad⟩ | ⟨h1, h2, c, hc, hbad⟩)
    · obtain ⟨msg, hm⟩ := decodeYAML_of_bad D c hbad
      simp [hc, hm, decoded, ReadError.SpecNotFound]
    · obtain ⟨msg, hm⟩ := decodeYAML_of_bad D c hbad
      simp [h1, hc, hm, decoded, ReadError.SpecNotFound]
    · obtain ⟨msg, hm⟩ := decodeJSON_of_bad D c hbad
      simp [h1, h2, hc, hm, decoded, ReadError.SpecNotFound]
  · intro e
    cases h1 : fs "cherry.yml" with
    | opened f =>
      cases hd : D.decodeYAML f with
      | ok sp => simp [decoded, hd]
      | error msg =>
        simp only [decoded, hd, Option.some.injEq]
        rintro rfl
        simp [ReadError.SpecNotFound]
    | failed msg => simp; rintro rfl; simp [ReadError.SpecNotFound]
    | notExist =>
      cases h2 : fs "cherry.yaml" with
      | opened f =>
        cases hd : D.decodeYAML f with
        | ok sp => simp [decoded, hd]
        | error msg =>
          simp only [decoded, hd, Option.some.injEq]
          rintro rfl
          simp [ReadError.SpecNotFound]
      | failed msg => simp; rintro rfl; simp [ReadError.SpecNotFound]
      | notExist =>
        cases h3 : fs "cherry.json" with
        | opened f =>
          cases hd : D.decodeJSON f with
          | ok sp => simp [decoded, hd]
          | error msg =>
            simp only [decoded, hd, Option.some.injEq]
            rintro rfl
            simp [ReadError.SpecNotFound]
        | failed msg => simp; rintro rfl; simp [ReadError.SpecNotFound]
        | notExist => simp

/-- Witness for C12 (amended): when the only spec file is an empty
`cherry.yaml`, `Read` returns a nil specification and an error that is not a
`SpecNotFound` error. -/
theorem C12_Read_witness :
    (Read emptyYAML sampleDecoders).1 = none ∧
    ∃ e, (Read emptyYAML sampleDecoders).2 = some e ∧ e.SpecNotFound = false :=
  (C12_Read emptyYAML sampleDecoders).2.2.1
    (Or.inr (Or.inl ⟨rfl, [], rfl, Or.inl rfl⟩))

end spec

end Cherry
